import Mathlib

/-!
Shallow embedding of the PillPanic core game engine (a Dr. Mario-style
falling-block matching puzzle written in TypeScript) together with proofs
about its matching, clearing, gravity, movement and state-machine logic.

The definitions mirror, construct for construct, the TypeScript sources:
  * `src/game/utils/constants.ts` — board dimensions, enums;
  * `src/game/entities/Board.ts`  — the cell grid and its accessors;
  * `src/game/entities/Pill.ts`, `SinglePill.ts`, `SplitGroup.ts` — the
    falling entities;
  * `src/game/systems/MatchingSystem.ts` — match scan, clearing, gravity;
  * `src/game/GameEngine.ts` — the fixed-timestep game loop and state
    machine.
JavaScript mutation is rendered as explicit state passing; `Math.random()`
draws are modelled by an explicit stream of pre-chosen values (each draw
`Math.floor(Math.random() * k)` becomes `stream i % k`, which ranges over
exactly the values the original can produce); `Date.now()`-based identifier
freshness is modelled by a counter; unbounded `while` loops become
fuel-indexed recursion with fuel large enough for every reachable state.
-/

namespace PillPanic

/-- enum Color (constants.ts): RED, BLUE, YELLOW. -/
inductive Color where
  | RED
  | BLUE
  | YELLOW
  deriving DecidableEq

/-- enum CellType (constants.ts): EMPTY, VIRUS, PILL. -/
inductive CellType where
  | EMPTY
  | VIRUS
  | PILL
  deriving DecidableEq

/-- enum Orientation (constants.ts): HORIZONTAL, VERTICAL. -/
inductive Orientation where
  | HORIZONTAL
  | VERTICAL
  deriving DecidableEq

/-- enum GameState (constants.ts). -/
inductive GameState where
  | MENU
  | PLAYING
  | PAUSED
  | GAME_OVER
  | LEVEL_COMPLETE
  deriving DecidableEq

/-- enum Direction (constants.ts). -/
inductive Direction where
  | LEFT
  | RIGHT
  | DOWN
  deriving DecidableEq

/-- interface Cell (types.ts): `{ type, color, pillId? }`.  A missing or
`null` field is `none`. -/
structure Cell where
  type : CellType
  color : Option Color
  pillId : Option String
  deriving DecidableEq

/-- interface Position (types.ts).  Coordinates are JavaScript numbers and
may go negative during movement tests, hence `Int`. -/
structure Position where
  x : Int
  y : Int
  deriving DecidableEq

/-- interface Virus (types.ts). -/
structure Virus where
  position : Position
  color : Color
  deriving DecidableEq

/-- interface SplitResult (types.ts): the surviving half of a pill freed by
a partial clear. -/
structure SplitResult where
  position : Position
  color : Color
  deriving DecidableEq

/-- BOARD_WIDTH (constants.ts). -/
def BOARD_WIDTH : Int := 8

/-- BOARD_HEIGHT (constants.ts). -/
def BOARD_HEIGHT : Int := 16

/-- The board's cell matrix `cells[y][x]`: always 16 rows of 8 cells, so we
represent it as a total function on the index ranges. -/
def Grid := Fin 16 → Fin 8 → Cell

instance : DecidableEq Grid :=
  inferInstanceAs (DecidableEq (Fin 16 → Fin 8 → Cell))

/-- The cell value written for an empty square: `{ type: EMPTY, color: null }`
(no `pillId` key). -/
def emptyCell : Cell := ⟨CellType.EMPTY, none, none⟩

/-- Board.createEmptyBoard / Board.clear. -/
def emptyGrid : Grid := fun _ _ => emptyCell

/-- Board.isValidPosition: `x >= 0 && x < BOARD_WIDTH && y >= 0 && y < BOARD_HEIGHT`. -/
def isValidPosition (x y : Int) : Bool :=
  decide (0 ≤ x ∧ x < 8 ∧ 0 ≤ y ∧ y < 16)

/-- Board.getCell: `null` (here `none`) out of bounds, otherwise `cells[y][x]`. -/
def getCell (b : Grid) (x y : Int) : Option Cell :=
  if h : 0 ≤ x ∧ x < 8 ∧ 0 ≤ y ∧ y < 16 then
    some (b ⟨y.toNat, by omega⟩ ⟨x.toNat, by omega⟩)
  else none

/-- Board.setCell: writes `cells[y][x]` when in bounds, otherwise does
nothing. -/
def setCell (b : Grid) (x y : Int) (c : Cell) : Grid :=
  if h : 0 ≤ x ∧ x < 8 ∧ 0 ≤ y ∧ y < 16 then
    fun j i =>
      if j = (⟨y.toNat, by omega⟩ : Fin 16) ∧ i = (⟨x.toNat, by omega⟩ : Fin 8) then c
      else b j i
  else b

/-- Board.isEmpty: `cell ? cell.type === CellType.EMPTY : false`. -/
def isEmpty (b : Grid) (x y : Int) : Bool :=
  match getCell b x y with
  | some cell => decide (cell.type = CellType.EMPTY)
  | none => false

/-- Board.addViruses: for each virus, write a `{ type: VIRUS, color }` cell
when its position is valid. -/
def addViruses (b : Grid) (vs : List Virus) : Grid :=
  vs.foldl
    (fun bb v =>
      if isValidPosition v.position.x v.position.y then
        setCell bb v.position.x v.position.y ⟨CellType.VIRUS, some v.color, none⟩
      else bb)
    b

/-- Board.countViruses: counts VIRUS-typed cells over the full grid. -/
def countViruses (b : Grid) : Nat :=
  (List.range 16).foldl
    (fun acc (y : Nat) =>
      (List.range 8).foldl
        (fun acc2 (x : Nat) =>
          match getCell b (x : Int) (y : Int) with
          | some c => if c.type = CellType.VIRUS then acc2 + 1 else acc2
          | none => acc2)
        acc)
    0

/-- JavaScript truthiness of an optional string field (`undefined`/`null`
and the empty string are falsy). -/
def strTruthy (o : Option String) : Bool :=
  match o with
  | none => false
  | some s => !s.isEmpty

/-- class Pill (Pill.ts): a two-cell capsule. -/
structure Pill where
  id : String
  position : Position
  orientation : Orientation
  colors : Color × Color
  isActive : Bool
  deriving DecidableEq

/-- Pill.getPositions: anchor plus the cell to its right (horizontal) or
below it (vertical). -/
def Pill.getPositions (p : Pill) : List Position :=
  if p.orientation = Orientation.HORIZONTAL then
    [⟨p.position.x, p.position.y⟩, ⟨p.position.x + 1, p.position.y⟩]
  else
    [⟨p.position.x, p.position.y⟩, ⟨p.position.x, p.position.y + 1⟩]

/-- Pill.canMove: every resulting cell must be a valid position and empty. -/
def Pill.canMove (p : Pill) (b : Grid) (dx dy : Int) : Bool :=
  p.getPositions.all fun pos =>
    isValidPosition (pos.x + dx) (pos.y + dy) && isEmpty b (pos.x + dx) (pos.y + dy)

/-- Pill.move. -/
def Pill.move (p : Pill) (dx dy : Int) : Pill :=
  { p with position := ⟨p.position.x + dx, p.position.y + dy⟩ }

/-- Pill.canRotate: horizontal pills check the cell below the anchor,
vertical pills check the cell to the anchor's right. -/
def Pill.canRotate (p : Pill) (b : Grid) : Bool :=
  if p.orientation = Orientation.HORIZONTAL then
    isValidPosition p.position.x (p.position.y + 1) && isEmpty b p.position.x (p.position.y + 1)
  else
    isValidPosition (p.position.x + 1) p.position.y && isEmpty b (p.position.x + 1) p.position.y

/-- Pill.rotate: horizontal becomes vertical unchanged; vertical becomes
horizontal with the two colors swapped. -/
def Pill.rotate (p : Pill) : Pill :=
  if p.orientation = Orientation.HORIZONTAL then
    { p with orientation := Orientation.VERTICAL }
  else
    { p with orientation := Orientation.HORIZONTAL, colors := (p.colors.2, p.colors.1) }

/-- Pill.place: write both cells tagged with the pill's id, deactivate. -/
def Pill.place (p : Pill) (b : Grid) : Grid :=
  let ps := p.getPositions
  let b1 :=
    match ps.get? 0 with
    | some pos => setCell b pos.x pos.y ⟨CellType.PILL, some p.colors.1, some p.id⟩
    | none => b
  match ps.get? 1 with
  | some pos => setCell b1 pos.x pos.y ⟨CellType.PILL, some p.colors.2, some p.id⟩
  | none => b1

/-- class SinglePill (SinglePill.ts): a one-cell fragment; cannot rotate. -/
structure SinglePill where
  id : String
  position : Position
  color : Color
  isActive : Bool
  deriving DecidableEq

/-- SinglePill.canMove. -/
def SinglePill.canMove (sp : SinglePill) (b : Grid) (dx dy : Int) : Bool :=
  isValidPosition (sp.position.x + dx) (sp.position.y + dy) &&
    isEmpty b (sp.position.x + dx) (sp.position.y + dy)

/-- SinglePill.move. -/
def SinglePill.move (sp : SinglePill) (dx dy : Int) : SinglePill :=
  { sp with position := ⟨sp.position.x + dx, sp.position.y + dy⟩ }

/-- SinglePill.place. -/
def SinglePill.place (sp : SinglePill) (b : Grid) : Grid :=
  setCell b sp.position.x sp.position.y ⟨CellType.PILL, some sp.color, some sp.id⟩

/-- class SplitGroup (SplitGroup.ts): a cohort of fragments falling as one
rigid unit. -/
structure SplitGroup where
  id : String
  position : Position
  pieces : List SinglePill
  isActive : Bool
  deriving DecidableEq

/-- SplitGroup.canMove: every piece must be able to move. -/
def SplitGroup.canMove (g : SplitGroup) (b : Grid) (dx dy : Int) : Bool :=
  g.pieces.all fun piece => piece.canMove b dx dy

/-- SplitGroup.move: move all pieces, then mirror the first piece's position. -/
def SplitGroup.move (g : SplitGroup) (dx dy : Int) : SplitGroup :=
  let pieces := g.pieces.map fun piece => piece.move dx dy
  { g with
    pieces := pieces
    position := match pieces.get? 0 with
      | some piece => piece.position
      | none => g.position }

/-- SplitGroup.place: place every piece, deactivate. -/
def SplitGroup.place (g : SplitGroup) (b : Grid) : Grid :=
  g.pieces.foldl (fun bb piece => piece.place bb) b

/-- SplitGroup.getLowestY: `Math.max` over the pieces' y coordinates (the
`-1000000` stands in for the `-Infinity` of an empty spread, which never
occurs because groups are built from non-empty split lists). -/
def SplitGroup.getLowestY (g : SplitGroup) : Int :=
  (g.pieces.map fun piece => piece.position.y).foldl max (-1000000)

/-- interface Controllable (types.ts): the closed set of falling entities
the engine stores in `fallingPills`. -/
inductive Entity where
  | pill (p : Pill)
  | single (sp : SinglePill)
  | group (g : SplitGroup)
  deriving DecidableEq

/-- Dynamic dispatch of `canMove` over the entity kinds. -/
def Entity.canMove (e : Entity) (b : Grid) (dx dy : Int) : Bool :=
  match e with
  | .pill p => p.canMove b dx dy
  | .single sp => sp.canMove b dx dy
  | .group g => g.canMove b dx dy

/-- Dynamic dispatch of `move`. -/
def Entity.move (e : Entity) (dx dy : Int) : Entity :=
  match e with
  | .pill p => .pill (p.move dx dy)
  | .single sp => .single (sp.move dx dy)
  | .group g => .group (g.move dx dy)

/-- Dynamic dispatch of `canRotate`: fragments and groups always refuse. -/
def Entity.canRotate (e : Entity) (b : Grid) : Bool :=
  match e with
  | .pill p => p.canRotate b
  | .single _ => false
  | .group _ => false

/-- Dynamic dispatch of `rotate`: a no-op on fragments and groups. -/
def Entity.rotate (e : Entity) : Entity :=
  match e with
  | .pill p => .pill p.rotate
  | .single sp => .single sp
  | .group g => .group g

/-- Dynamic dispatch of `place` (board effect only; the engine removes the
placed entity from the falling set immediately afterwards). -/
def Entity.place (e : Entity) (b : Grid) : Grid :=
  match e with
  | .pill p => p.place b
  | .single sp => sp.place b
  | .group g => g.place b

/-- GameEngine.getLowestPositionY: SplitGroups report their lowest piece,
other entities their own y. -/
def Entity.lowestPositionY (e : Entity) : Int :=
  match e with
  | .pill p => p.position.y
  | .single sp => sp.position.y
  | .group g => g.getLowestY

/-- MatchingSystem.minMatchLength. -/
def minMatchLength : Nat := 4

/-- The color a scan position contributes: the guard
`cell && cell.type !== CellType.EMPTY && cell.color` collapses an absent
cell, an EMPTY cell and a colorless cell into `none`. -/
def occColor (oc : Option Cell) : Option Color :=
  match oc with
  | some cell => if cell.type ≠ CellType.EMPTY then cell.color else none
  | none => none

/-- The mutable scan state of one findMatches line pass:
`currentColor`, `matchPositions` and the growing `matches` array. -/
structure ScanState where
  cur : Option Color
  run : List Position
  acc : List (List Position)

/-- Flush `matchPositions` into `matches` when it has reached
`minMatchLength`. -/
def flushRun (st : ScanState) : List (List Position) :=
  if minMatchLength ≤ st.run.length then st.acc ++ [st.run] else st.acc

/-- One iteration of the findMatches scan loop at a position carrying an
effective color. -/
def scanStep (st : ScanState) (pc : Position × Option Color) : ScanState :=
  match pc.2 with
  | some c =>
      if st.cur = some c then { st with run := st.run ++ [pc.1] }
      else { cur := some c, run := [pc.1], acc := flushRun st }
  | none => { cur := none, run := [], acc := flushRun st }

/-- One full line pass of findMatches: scan left to right, flushing the
pending run at the end of the line. -/
def scanLine (l : List (Position × Option Color)) : List (List Position) :=
  flushRun (l.foldl scanStep ⟨none, [], []⟩)

/-- Row `y` of the board as seen by the horizontal scan. -/
def rowLine (b : Grid) (y : Nat) : List (Position × Option Color) :=
  (List.range 8).map fun (x : Nat) =>
    (⟨(x : Int), (y : Int)⟩, occColor (getCell b (x : Int) (y : Int)))

/-- Column `x` of the board as seen by the vertical scan. -/
def colLine (b : Grid) (x : Nat) : List (Position × Option Color) :=
  (List.range 16).map fun (y : Nat) =>
    (⟨(x : Int), (y : Int)⟩, occColor (getCell b (x : Int) (y : Int)))

/-- MatchingSystem.findMatches: horizontal scans of every row followed by
vertical scans of every column (the `visited` set in the source is written
but never read, so it is omitted). -/
def findMatches (b : Grid) : List (List Position) :=
  ((List.range 16).flatMap fun y => scanLine (rowLine b y)) ++
    ((List.range 8).flatMap fun x => scanLine (colLine b x))

/-- Insertion into the `clearedPositions` Set: adding an element already
present is a no-op; iteration order is insertion order. -/
def posInsert (l : List Position) (p : Position) : List Position :=
  if p ∈ l then l else l ++ [p]

/-- `affectedPills.get(pillId)!.push(pos)` on the Map from pill ids to the
cleared positions observed for that pill (with multiplicity). -/
def assocPush (m : List (String × List Position)) (pid : String) (p : Position) :
    List (String × List Position) :=
  if m.any fun kv => kv.1 = pid then
    m.map fun kv => if kv.1 = pid then (kv.1, kv.2 ++ [p]) else kv
  else m ++ [(pid, [p])]

/-- MatchingSystem.findPillCells: every PILL cell of the grid whose
`pillId` equals `pid`, in row-major order. -/
def findPillCells (b : Grid) (pid : String) : List Position :=
  (List.range 16).flatMap fun (y : Nat) =>
    (List.range 8).filterMap fun (x : Nat) =>
      match getCell b (x : Int) (y : Int) with
      | some c =>
          if c.type = CellType.PILL ∧ c.pillId = some pid then some ⟨(x : Int), (y : Int)⟩
          else none
      | none => none

/-- First pass of clearMatches: collect the clear-set and, per pill id, the
positions of that pill hit by a match (pushed once per containing run). -/
def clearPass1 (b : Grid) (ms : List (List Position)) :
    List Position × List (String × List Position) :=
  ms.foldl
    (fun st m =>
      m.foldl
        (fun st2 pos =>
          match getCell b pos.x pos.y with
          | some cell =>
              if cell.type ≠ CellType.EMPTY then
                let cleared := posInsert st2.1 pos
                let affected :=
                  if cell.type = CellType.PILL ∧ strTruthy cell.pillId then
                    match cell.pillId with
                    | some pid => assocPush st2.2 pid pos
                    | none => st2.2
                  else st2.2
                (cleared, affected)
              else st2
          | none => st2)
        st)
    ([], [])

/-- Second pass of clearMatches: when the recorded cleared parts of a pill
are fewer than all its cells, emit the remaining colored cells as splits
and add them to the clear-set. -/
def clearPass2 (b : Grid) (affected : List (String × List Position))
    (cleared0 : List Position) : List Position × List SplitResult :=
  affected.foldl
    (fun st entry =>
      let allPillCells := findPillCells b entry.1
      if entry.2.length < allPillCells.length then
        allPillCells.foldl
          (fun st2 pos =>
            if pos ∈ st2.1 then st2
            else
              match getCell b pos.x pos.y with
              | some cell =>
                  match cell.color with
                  | some col => (posInsert st2.1 pos, st2.2 ++ [⟨pos, col⟩])
                  | none => st2
              | none => st2)
          st
      else st)
    (cleared0, [])

/-- MatchingSystem.clearMatches: returns the mutated grid, `clearedCount`
and the `splits` array. -/
def clearMatches (b : Grid) (ms : List (List Position)) :
    Grid × Nat × List SplitResult :=
  let p1 := clearPass1 b ms
  let p2 := clearPass2 b p1.2 p1.1
  let b2 := p2.1.foldl (fun bb pos => setCell bb pos.x pos.y emptyCell) b
  (b2, p2.1.length, p2.2)

/-- MatchingSystem.canPillFall: every cell of the group must be above the
bottom row and have an empty cell (or another cell of the same pill)
directly beneath it. -/
def canPillFall (b : Grid) (positions : List Position) : Bool :=
  positions.all fun pos =>
    if 15 ≤ pos.y then false
    else
      match getCell b pos.x (pos.y + 1) with
      | none => true
      | some below =>
          if below.type ≠ CellType.EMPTY then
            decide (below.type = CellType.PILL ∧
              below.pillId = (match getCell b pos.x pos.y with
                | some cur => cur.pillId
                | none => none))
          else true

/-- Insertion sort by descending y, modelling
`positions.sort((a, b) => b.y - a.y)` in movePillDown. -/
def insertByYDesc (p : Position) : List Position → List Position
  | [] => [p]
  | q :: rest => if q.y ≤ p.y then p :: q :: rest else q :: insertByYDesc p rest

/-- Sort a position list by descending y. -/
def sortByYDesc : List Position → List Position
  | [] => []
  | p :: rest => insertByYDesc p (sortByYDesc rest)

/-- MatchingSystem.movePillDown: snapshot the group's cells, clear the old
positions, write each cell one row lower. -/
def movePillDown (b : Grid) (positions : List Position) : Grid :=
  let sorted := sortByYDesc positions
  let pillData := sorted.map fun pos => (pos, (getCell b pos.x pos.y).getD emptyCell)
  let cleared := sorted.foldl (fun bb pos => setCell bb pos.x pos.y emptyCell) b
  pillData.foldl (fun bb pc => setCell bb pc.1.x (pc.1.y + 1) pc.2) cleared

/-- MatchingSystem.canSingleBlockFall. -/
def canSingleBlockFall (b : Grid) (x y : Int) : Bool :=
  if 15 ≤ y then false
  else
    match getCell b x (y + 1) with
    | some below => decide (below.type = CellType.EMPTY)
    | none => false

/-- MatchingSystem.moveSingleBlockDown. -/
def moveSingleBlockDown (b : Grid) (x y : Int) : Grid :=
  match getCell b x y with
  | some cell => setCell (setCell b x y emptyCell) x (y + 1) cell
  | none => b

/-- The mutable state of one applyGravity pass: the board, the `moved`
flag and the `processedPills` set. -/
structure GravState where
  board : Grid
  moved : Bool
  processed : List String

/-- The single-block branch of the applyGravity loop body. -/
def gravitySingleStep (s : GravState) (x y : Int) : GravState :=
  if canSingleBlockFall s.board x y then ⟨moveSingleBlockDown s.board x y, true, s.processed⟩
  else s

/-- The connected-pill branch of the applyGravity loop body. -/
def gravityGroupStep (s : GravState) (pid : String) : GravState :=
  if pid ∈ s.processed then s
  else
    let pillCells := findPillCells s.board pid
    if canPillFall s.board pillCells then
      ⟨movePillDown s.board pillCells, true, pid :: s.processed⟩
    else ⟨s.board, s.moved, pid :: s.processed⟩

/-- One iteration of the applyGravity double loop at coordinate `(x, y)`:
PILL cells fall (as a tagged group or as a single block), VIRUS cells are
skipped. -/
def gravityStep (s : GravState) (xy : Int × Int) : GravState :=
  match getCell s.board xy.1 xy.2 with
  | none => s
  | some cell =>
      if cell.type = CellType.PILL then
        match cell.pillId with
        | some pid => if pid.isEmpty then gravitySingleStep s xy.1 xy.2 else gravityGroupStep s pid
        | none => gravitySingleStep s xy.1 xy.2
      else s

/-- The traversal order of applyGravity: `y` from `BOARD_HEIGHT - 2` down
to 0, `x` from 0 to `BOARD_WIDTH - 1`. -/
def gravityCoords : List (Int × Int) :=
  (List.range 15).reverse.flatMap fun (y : Nat) =>
    (List.range 8).map fun (x : Nat) => ((x : Int), (y : Int))

/-- MatchingSystem.applyGravity: one bottom-to-top pass; returns the new
grid and whether anything moved. -/
def applyGravity (b : Grid) : Grid × Bool :=
  let s := gravityCoords.foldl gravityStep ⟨b, false, []⟩
  (s.board, s.moved)

/-- The `while (this.applyGravity())` loop of processMatches, as
fuel-indexed recursion.  Every moving pass strictly decreases the total
distance of the occupied cells from the floor (at most 16 * 128), so 2048
units of fuel always reach the fixed point. -/
def gravityLoop : Nat → Grid → Grid
  | 0, b => b
  | fuel + 1, b =>
      let r := applyGravity b
      if r.2 then gravityLoop fuel r.1 else r.1

/-- MatchingSystem.processMatches: find, clear, then gravity to the fixed
point; returns the final grid, `cleared`, `matches` and `splits`. -/
def processMatches (b : Grid) : Grid × Nat × List (List Position) × List SplitResult :=
  let found := findMatches b
  let r := clearMatches b found
  (gravityLoop 2048 r.1, r.2.1, found, r.2.2)

/-- FALL_SPEED (constants.ts), in milliseconds. -/
def FALL_SPEED : ℚ := 800

/-- FAST_FALL_SPEED (constants.ts). -/
def FAST_FALL_SPEED : ℚ := 80

/-- GameEngine.FIXED_TIMESTEP: 16.67 ms. -/
def FIXED_TIMESTEP : ℚ := 1667 / 100

/-- interface GameStats (types.ts). -/
structure GameStats where
  score : Nat
  level : Nat
  virusCount : Nat
  linesCleared : Nat
  deriving DecidableEq

/-- The GameEngine's mutable fields.  `rand` and `ridx` model the stream of
`Math.random()` draws (draw number `ridx` of `Math.floor(Math.random() * k)`
is `rand ridx % k`); `idCounter` models `Date.now()`-based id freshness. -/
structure EngineState where
  board : Grid
  fallingPills : List Entity
  activePillIndex : Nat
  nextPill : Option Pill
  gameState : GameState
  stats : GameStats
  lastFallTime : ℚ
  fallSpeed : ℚ
  accumulator : ℚ
  rand : Nat → Nat
  ridx : Nat
  idCounter : Nat

/-- Consume one `Math.floor(Math.random() * k)` draw. -/
def draw (s : EngineState) (k : Nat) : Nat × EngineState :=
  (s.rand s.ridx % k, { s with ridx := s.ridx + 1 })

/-- `Object.values(Color)[i]` for `i < 3`. -/
def colorOfNat (n : Nat) : Color :=
  if n = 0 then Color.RED else if n = 1 then Color.BLUE else Color.YELLOW

/-- Pill.generateRandomPill: two random colors, a fresh id, anchored at
`(3, 0)` horizontally, active. -/
def generateRandomPill (s : EngineState) : Pill × EngineState :=
  let d1 := draw s 3
  let d2 := draw d1.2 3
  let p : Pill :=
    { id := "pill-" ++ toString d2.2.idCounter
      position := ⟨3, 0⟩
      orientation := Orientation.HORIZONTAL
      colors := (colorOfNat d1.1, colorOfNat d2.1)
      isActive := true }
  (p, { d2.2 with idCounter := d2.2.idCounter + 1 })

/-- The inner `while (!placed && attempts < 100)` loop of generateViruses:
draw a random x in `[0, 8)` and a random y in `[8, 15]` (the lower half,
`minY = floor(16 * 0.5) = 8`), retrying while the cell is occupied; a
random color is drawn only when a spot is found. -/
def virusAttempt : Nat → EngineState → Option Virus × EngineState
  | 0, s => (none, s)
  | fuel + 1, s =>
      let d1 := draw s 8
      let d2 := draw d1.2 8
      let x : Int := d1.1
      let y : Int := (d2.1 : Int) + 8
      if isEmpty d2.2.board x y then
        let d3 := draw d2.2 3
        (some ⟨⟨x, y⟩, colorOfNat d3.1⟩, d3.2)
      else virusAttempt fuel d2.2

/-- The outer `for` loop of generateViruses: collect up to `n` viruses. -/
def genVirusList : Nat → EngineState → List Virus → List Virus × EngineState
  | 0, s, acc => (acc, s)
  | n + 1, s, acc =>
      let r := virusAttempt 100 s
      match r.1 with
      | some v => genVirusList n r.2 (acc ++ [v])
      | none => genVirusList n r.2 acc

/-- GameEngine.generateViruses: `min(4 + level * 2, 20)` viruses placed in
the lower half of the board, then committed with addViruses. -/
def generateViruses (s : EngineState) (level : Nat) : EngineState :=
  let cnt := min (4 + level * 2) 20
  let r := genVirusList cnt s []
  { r.2 with board := addViruses r.2.board r.1 }

/-- GameEngine.gameOver: transition to GAME_OVER. -/
def gameOver (s : EngineState) : EngineState :=
  { s with gameState := GameState.GAME_OVER }

/-- GameEngine.levelComplete: transition to LEVEL_COMPLETE and award the
level bonus. -/
def levelComplete (s : EngineState) : EngineState :=
  let s := { s with gameState := GameState.LEVEL_COMPLETE }
  { s with stats := { s.stats with score := s.stats.score + 1000 * s.stats.level } }

/-- GameEngine.spawnNextPill: when no pills are falling, push the pending
next pill, regenerate it, and game over if the spawn position is blocked. -/
def spawnNextPill (s : EngineState) : EngineState :=
  match s.nextPill with
  | none => s
  | some np =>
      if s.fallingPills.length = 0 then
        let s := { s with fallingPills := [Entity.pill np], activePillIndex := 0 }
        let g := generateRandomPill s
        let s := { g.2 with nextPill := some g.1 }
        if (Entity.pill np).canMove s.board 0 0 then s else gameOver s
      else s

/-- GameEngine.findLowestPill: index of the falling entity with the
largest lowest y (ties keep the earlier index). -/
def findLowestPill (pills : List Entity) : Nat :=
  let first := match pills.get? 0 with
    | some e => e.lowestPositionY
    | none => -1000000
  let r := (List.range pills.length).foldl
    (fun st i =>
      if i = 0 then st
      else
        match pills.get? i with
        | some e => if st.2 < e.lowestPositionY then (i, e.lowestPositionY) else st
        | none => st)
    (0, first)
  r.1

/-- Build the SinglePill entities of a SplitGroup from a splits list,
numbering ids from the engine's counter. -/
def mkSplitPieces (n : Nat) : List SplitResult → List SinglePill
  | [] => []
  | sp :: rest => ⟨"single-" ++ toString n, sp.position, sp.color, true⟩ :: mkSplitPieces (n + 1) rest

/-- `new SplitGroup(splits)`: wrap the freed fragments into one rigid
group whose position mirrors its first piece. -/
def mkSplitGroup (s : EngineState) (splits : List SplitResult) : SplitGroup × EngineState :=
  let pieces := mkSplitPieces s.idCounter splits
  let g : SplitGroup :=
    { id := "split-group-" ++ toString (s.idCounter + splits.length)
      position := match pieces.get? 0 with
        | some piece => piece.position
        | none => ⟨0, 0⟩
      pieces := pieces
      isActive := true }
  (g, { s with idCounter := s.idCounter + splits.length + 1 })

/-- The `while (hasMatches)` loop of processMatchesAndGravity: repeat
processMatches, accumulating score and combo and turning splits into a
falling SplitGroup, until a pass clears nothing.  Each clearing pass
removes at least one of the at most 128 occupied cells, so 129 units of
fuel reach the exit. -/
def pmagLoop : Nat → EngineState → Nat → Nat → EngineState × Nat
  | 0, s, total, _ => (s, total)
  | fuel + 1, s, total, combo =>
      let r := processMatches s.board
      let s := { s with board := r.1 }
      if 0 < r.2.1 then
        let total := total + r.2.1
        let combo := combo + 1
        let s := { s with stats := { s.stats with score := s.stats.score + r.2.1 * 100 * combo } }
        let s :=
          if r.2.2.2.length ≠ 0 then
            let g := mkSplitGroup s r.2.2.2
            let s2 : EngineState := { g.2 with fallingPills := g.2.fallingPills ++ [Entity.group g.1] }
            if 0 < s2.fallingPills.length then
              { s2 with activePillIndex := findLowestPill s2.fallingPills }
            else s2
          else s
        pmagLoop fuel s total combo
      else (s, total)

/-- GameEngine.processMatchesAndGravity: resolve the full cascade, update
linesCleared and virusCount, then either complete the level or spawn. -/
def processMatchesAndGravity (s : EngineState) : EngineState :=
  let r := pmagLoop 129 s 0 0
  let s := r.1
  let totalCleared := r.2
  let s :=
    if 0 < totalCleared then
      { s with stats := { s.stats with linesCleared := s.stats.linesCleared + totalCleared / 4 } }
    else s
  let s := { s with stats := { s.stats with virusCount := countViruses s.board } }
  if s.stats.virusCount = 0 then levelComplete s
  else if s.fallingPills.length = 0 then spawnNextPill s
  else s

/-- GameEngine.placePill: commit the active entity to the board, remove it
from the falling set, then either retarget the lowest remaining entity or
run cascade resolution. -/
def placePill (s : EngineState) : EngineState :=
  if s.fallingPills.length = 0 ∨ s.fallingPills.length ≤ s.activePillIndex then s
  else
    match s.fallingPills.get? s.activePillIndex with
    | none => s
    | some e =>
        let s := { s with
          board := e.place s.board
          fallingPills := s.fallingPills.eraseIdx s.activePillIndex }
        if 0 < s.fallingPills.length then
          { s with activePillIndex := findLowestPill s.fallingPills }
        else processMatchesAndGravity s

/-- GameEngine.movePill: move the active entity by one cell when legal; an
illegal downward move places the pill instead. -/
def movePill (s : EngineState) (dir : Direction) : EngineState :=
  if s.fallingPills.length = 0 ∨ s.fallingPills.length ≤ s.activePillIndex ∨
      s.gameState ≠ GameState.PLAYING then s
  else
    match s.fallingPills.get? s.activePillIndex with
    | none => s
    | some e =>
        let d : Int × Int :=
          match dir with
          | Direction.LEFT => (-1, 0)
          | Direction.RIGHT => (1, 0)
          | Direction.DOWN => (0, 1)
        if e.canMove s.board d.1 d.2 then
          { s with fallingPills := s.fallingPills.set s.activePillIndex (e.move d.1 d.2) }
        else if dir = Direction.DOWN then placePill s
        else s

/-- GameEngine.rotatePill: rotate the active entity when its canRotate
check passes. -/
def rotatePill (s : EngineState) : EngineState :=
  if s.fallingPills.length = 0 ∨ s.fallingPills.length ≤ s.activePillIndex ∨
      s.gameState ≠ GameState.PLAYING then s
  else
    match s.fallingPills.get? s.activePillIndex with
    | none => s
    | some e =>
        if e.canRotate s.board then
          { s with fallingPills := s.fallingPills.set s.activePillIndex e.rotate }
        else s

/-- The `while (activePill.canMove(board, 0, 1))` loop of dropPill; the
board is 16 rows tall, so 32 units of fuel are ample. -/
def dropLoop : Nat → Grid → Entity → Entity
  | 0, _, e => e
  | fuel + 1, b, e => if e.canMove b 0 1 then dropLoop fuel b (e.move 0 1) else e

/-- GameEngine.dropPill: hard drop the active entity, then place it. -/
def dropPill (s : EngineState) : EngineState :=
  if s.fallingPills.length = 0 ∨ s.fallingPills.length ≤ s.activePillIndex ∨
      s.gameState ≠ GameState.PLAYING then s
  else
    match s.fallingPills.get? s.activePillIndex with
    | none => s
    | some e =>
        let e2 := dropLoop 32 s.board e
        placePill { s with fallingPills := s.fallingPills.set s.activePillIndex e2 }

/-- GameEngine.fixedUpdate: advance the fall timer one sub-step and apply
a downward move when the fall interval has elapsed. -/
def fixedUpdate (s : EngineState) (timestep : ℚ) : EngineState :=
  if s.fallingPills.length = 0 ∨ s.fallingPills.length ≤ s.activePillIndex then s
  else
    let s := { s with lastFallTime := s.lastFallTime + timestep }
    if s.fallSpeed ≤ s.lastFallTime then movePill { s with lastFallTime := 0 } Direction.DOWN
    else s

/-- The `while (accumulator >= FIXED_TIMESTEP)` loop of update.  A clamped
delta adds at most 100 ms on top of a residue below one timestep, so 64
units of fuel cover every reachable accumulator value. -/
def updateLoop : Nat → EngineState → EngineState
  | 0, s => s
  | fuel + 1, s =>
      if FIXED_TIMESTEP ≤ s.accumulator then
        let s2 := fixedUpdate s FIXED_TIMESTEP
        updateLoop fuel { s2 with accumulator := s2.accumulator - FIXED_TIMESTEP }
      else s

/-- GameEngine.update: ignore frames outside PLAYING, clamp deltaTime to
100 ms, accumulate, and run fixed sub-steps. -/
def update (s : EngineState) (deltaTime : ℚ) : EngineState :=
  if s.gameState ≠ GameState.PLAYING then s
  else
    let dt := min deltaTime 100
    updateLoop 64 { s with accumulator := s.accumulator + dt }

/-- GameEngine.pause: PLAYING → PAUSED, otherwise no-op. -/
def pause (s : EngineState) : EngineState :=
  if s.gameState = GameState.PLAYING then { s with gameState := GameState.PAUSED } else s

/-- GameEngine.resume: PAUSED → PLAYING, otherwise no-op. -/
def resume (s : EngineState) : EngineState :=
  if s.gameState = GameState.PAUSED then { s with gameState := GameState.PLAYING } else s

/-- GameEngine.setFastDrop: swap the fall interval between the fast
constant and the base speed. -/
def setFastDrop (s : EngineState) (fast : Bool) : EngineState :=
  { s with fallSpeed := if fast then FAST_FALL_SPEED else FALL_SPEED }

/-- GameEngine.startGame: reset stats, clear and repopulate the board,
reset the falling set and timers, enter PLAYING, and spawn the first pill. -/
def startGame (s : EngineState) (level : Nat) : EngineState :=
  let s := { s with stats := ⟨0, level, 0, 0⟩ }
  let s := { s with board := emptyGrid }
  let s := generateViruses s level
  let s := { s with stats := { s.stats with virusCount := countViruses s.board } }
  let s := { s with fallingPills := [], activePillIndex := 0 }
  let g := generateRandomPill s
  let s := { g.2 with nextPill := some g.1 }
  let s := { s with fallSpeed := max 200 (800 - ((level : ℚ) - 1) * 80) }
  let s := { s with lastFallTime := 0, accumulator := 0 }
  let s := { s with gameState := GameState.PLAYING }
  spawnNextPill s

/-!
Specification-side definitions.  These follow the wording of the
specification ("a run is a maximal sequence of adjacent same-color,
non-empty cells; a run qualifies if length ≥ 4") rather than the source
code, so that the scan of `findMatches` can be proved equal to them.
-/

/-- Fuel-indexed form of `maxRuns` (each step consumes at least one list
element, so fuel equal to the length always suffices): an occupied
position opens a block consisting of it and the longest stretch of
following positions of the same color (`takeWhile`); the scan resumes
after that stretch (`dropWhile`), so every block is maximal. -/
def maxRunsF : Nat → List (Position × Option Color) → List (List Position)
  | 0, _ => []
  | _ + 1, [] => []
  | fuel + 1, (_, none) :: rest => maxRunsF fuel rest
  | fuel + 1, (p, some c) :: rest =>
      let blk := p :: (rest.takeWhile fun q => decide (q.2 = some c)).map Prod.fst
      (if minMatchLength ≤ blk.length then [blk] else []) ++
        maxRunsF fuel (rest.dropWhile fun q => decide (q.2 = some c))

/-- The maximal runs of a line, filtered to qualifying length. -/
def maxRuns (l : List (Position × Option Color)) : List (List Position) :=
  maxRunsF l.length l

/-- The qualifying maximal runs of every row, then of every column: what
the specification says `findMatches` returns. -/
def specMatches (b : Grid) : List (List Position) :=
  ((List.range 16).flatMap fun y => maxRuns (rowLine b y)) ++
    ((List.range 8).flatMap fun x => maxRuns (colLine b x))

/-- Recursive restatement of the findMatches scan with its pending state
explicit, used to bridge the `foldl` to `maxRuns`. -/
def contRuns : Option Color → List Position → List (Position × Option Color) → List (List Position)
  | _, run, [] => if minMatchLength ≤ run.length then [run] else []
  | cur, run, pc :: rest =>
      match pc.2 with
      | some c =>
          if cur = some c then contRuns cur (run ++ [pc.1]) rest
          else
            (if minMatchLength ≤ run.length then [run] else []) ++ contRuns (some c) [pc.1] rest
      | none => (if minMatchLength ≤ run.length then [run] else []) ++ contRuns none [] rest

/-- `b1` differs from `b0` only at non-virus cells: no virus is moved,
overwritten or created. -/
def noVirusChange (b0 b1 : Grid) : Prop :=
  ∀ (j : Fin 16) (i : Fin 8), b1 j i ≠ b0 j i →
    (b0 j i).type ≠ CellType.VIRUS ∧ (b1 j i).type ≠ CellType.VIRUS

/-- What one no-move visit of the applyGravity loop guarantees about the
cell it inspected, given the processed-pill set `P` at the end of the
pass. -/
def visitOK (b : Grid) (P : List String) (x y : Int) : Prop :=
  ∀ c : Cell, getCell b x y = some c → c.type = CellType.PILL →
    (∀ pid : String, c.pillId = some pid → pid.isEmpty = false → pid ∈ P) ∧
    (strTruthy c.pillId = false → canSingleBlockFall b x y = false)

/-!
Concrete boards and engine states used by the witnesses and
counterexamples below.
-/

/-- Build a grid from a list of `(x, y, cell)` triples (unlisted squares
are empty). -/
def gridOf (l : List (Nat × Nat × Cell)) : Grid := fun j i =>
  match l.find? fun t => decide (t.1 = i.val ∧ t.2.1 = j.val) with
  | some t => t.2.2
  | none => emptyCell

/-- A red virus cell. -/
def virusR : Cell := ⟨CellType.VIRUS, some Color.RED, none⟩

/-- A red cell of the two-cell pill "p". -/
def pillPR : Cell := ⟨CellType.PILL, some Color.RED, some "p"⟩

/-- A blue cell of the two-cell pill "p". -/
def pillPB : Cell := ⟨CellType.PILL, some Color.BLUE, some "p"⟩

/-- An ungrouped (no pill id) red pill cell. -/
def looseR : Cell := ⟨CellType.PILL, some Color.RED, none⟩

/-- A gravity fixed point with a hole under half of a pill: a virus on the
floor at `(0, 15)` supports the left half of the horizontal pill "p" at
`(0, 14)`–`(1, 14)`, while `(1, 15)` is empty. -/
def gHalfSupported : Grid :=
  gridOf [(0, 15, virusR), (0, 14, pillPR), (1, 14, pillPB)]

/-- A small stable board: a virus on the floor with a loose pill block
resting on it. -/
def gSettled : Grid := gridOf [(0, 15, virusR), (0, 14, looseR)]

/-- A floating loose block at the top of an otherwise empty board. -/
def gFloating : Grid := gridOf [(0, 0, looseR)]

/-- The double-match pill board: the red half `(3, 3)` of pill "p" closes
both a horizontal run `(0..3, 3)` and a vertical run `(3, 0..3)` of red,
while its blue half sits at `(4, 3)`. -/
def gDoubleMatch : Grid :=
  gridOf [(0, 3, virusR), (1, 3, virusR), (2, 3, virusR), (3, 3, pillPR), (4, 3, pillPB),
    (3, 0, virusR), (3, 1, virusR), (3, 2, virusR)]

/-- Baseline stats. -/
def statsZero : GameStats := ⟨0, 1, 0, 0⟩

/-- A paused engine over an empty board. -/
def sPaused : EngineState :=
  ⟨emptyGrid, [], 0, none, GameState.PAUSED, statsZero, 0, 800, 0, fun _ => 0, 0, 0⟩

/-- A fixed two-color test pill at the spawn anchor. -/
def pTest : Pill := ⟨"pill-w", ⟨3, 0⟩, Orientation.HORIZONTAL, (Color.RED, Color.BLUE), true⟩

/-- A completely filled board (every spawn cell occupied). -/
def bFull : Grid := fun _ _ => ⟨CellType.PILL, some Color.RED, none⟩

/-- An engine about to spawn `pTest` onto a fully blocked board. -/
def sBlocked : EngineState :=
  ⟨bFull, [], 0, some pTest, GameState.PLAYING, statsZero, 0, 800, 0, fun _ => 0, 0, 0⟩

/-- A menu-state engine whose board has been pre-filled to the top, with a
fixed random stream: the input of the spawn-blocked scenario. -/
def sPrefilled : EngineState :=
  ⟨bFull, [], 0, none, GameState.MENU, statsZero, 0, 800, 0, fun _ => 0, 0, 0⟩

/-- A vertical pill at the rightmost column. -/
def pVert : Pill := ⟨"pill-v", ⟨7, 2⟩, Orientation.VERTICAL, (Color.RED, Color.BLUE), true⟩

/-- A playing engine whose active entity is `pVert`. -/
def sRightmost : EngineState :=
  ⟨emptyGrid, [Entity.pill pVert], 0, none, GameState.PLAYING, statsZero, 0, 800, 0, fun _ => 0, 0, 0⟩

/-- A sample fragment. -/
def spTest : SinglePill := ⟨"single-w", ⟨2, 2⟩, Color.RED, true⟩

/-- A sample one-piece fragment group. -/
def gTest : SplitGroup := ⟨"split-group-w", ⟨2, 2⟩, [spTest], true⟩

/-!
Lemmas about the findMatches scan: the `foldl` loop computes exactly the
qualifying maximal runs of each line.
-/

/-- Closed form of the flush step. -/
theorem flushRun_eq (st : ScanState) :
    flushRun st = st.acc ++ (if minMatchLength ≤ st.run.length then [st.run] else []) := by
  unfold flushRun
  split <;> simp

/-- The scan loop on any start state computes `contRuns` of the pending
run, appended to the matches already accumulated. -/
theorem scan_fold_eq (l : List (Position × Option Color)) :
    ∀ st : ScanState, flushRun (l.foldl scanStep st) = st.acc ++ contRuns st.cur st.run l := by
  induction l with
  | nil =>
      intro st
      rw [List.foldl_nil, flushRun_eq]
      simp [contRuns]
  | cons pc rest ih =>
      intro st
      obtain ⟨p, oc⟩ := pc
      rw [List.foldl_cons]
      cases oc with
      | some c =>
          by_cases hc : st.cur = some c
          · rw [ih]
            simp [scanStep, hc, contRuns]
          · rw [ih]
            simp [scanStep, hc, contRuns, flushRun_eq]
      | none =>
          rw [ih]
          simp [scanStep, contRuns, flushRun_eq]

/-- The line scan equals `contRuns` started on an empty pending state. -/
theorem scanLine_eq_contRuns (l : List (Position × Option Color)) :
    scanLine l = contRuns none [] l := by
  unfold scanLine
  rw [scan_fold_eq]
  rfl

/-- dropWhile never lengthens a list. -/
theorem dropWhile_len_le (f : α → Bool) : ∀ l : List α, (l.dropWhile f).length ≤ l.length := by
  intro l
  induction l with
  | nil => simp
  | cons a l ih =>
      rw [List.dropWhile_cons]
      split
      · exact le_trans ih (Nat.le_succ _)
      · exact le_refl _

/-- `maxRunsF` ignores its fuel once the fuel covers the list length. -/
theorem maxRunsF_congr : ∀ (f1 f2 : Nat) (l : List (Position × Option Color)),
    l.length ≤ f1 → l.length ≤ f2 → maxRunsF f1 l = maxRunsF f2 l := by
  intro f1
  induction f1 with
  | zero =>
      intro f2 l h1 _
      have : l = [] := List.length_eq_zero.mp (Nat.le_zero.mp h1)
      subst this
      cases f2 <;> rfl
  | succ f ih =>
      intro f2 l h1 h2
      cases l with
      | nil => cases f2 <;> rfl
      | cons pc rest =>
          cases f2 with
          | zero => simp at h2
          | succ g =>
              obtain ⟨p, oc⟩ := pc
              have hr : rest.length ≤ f := by simp at h1; omega
              have hg : rest.length ≤ g := by simp at h2; omega
              cases oc with
              | none => simpa [maxRunsF] using ih g rest hr hg
              | some c =>
                  simp only [maxRunsF]
                  congr 1
                  exact ih g _ (le_trans (dropWhile_len_le _ _) hr)
                    (le_trans (dropWhile_len_le _ _) hg)

/-- Unfolding `maxRuns` over an unoccupied head. -/
theorem maxRuns_cons_none (p : Position) (rest : List (Position × Option Color)) :
    maxRuns ((p, none) :: rest) = maxRuns rest := rfl

/-- Unfolding `maxRuns` over an occupied head: emit the maximal block
through that head when it qualifies, and continue after the block. -/
theorem maxRuns_cons_some (p : Position) (c : Color) (rest : List (Position × Option Color)) :
    maxRuns ((p, some c) :: rest) =
      (if minMatchLength ≤ (p :: (rest.takeWhile fun q => decide (q.2 = some c)).map Prod.fst).length
        then [p :: (rest.takeWhile fun q => decide (q.2 = some c)).map Prod.fst] else []) ++
        maxRuns (rest.dropWhile fun q => decide (q.2 = some c)) := by
  unfold maxRuns
  simp only [List.length_cons, maxRunsF]
  congr 1
  exact maxRunsF_congr rest.length _ _ (dropWhile_len_le _ _) le_rfl

/-- The explicit-state scan recursion computes qualifying maximal runs:
with a pending run of color `c` it completes that run with the maximal
following stretch of `c`, and from the idle state it computes `maxRuns`. -/
theorem contRuns_maxRuns : ∀ l : List (Position × Option Color),
    (∀ (c : Color) (run : List Position), contRuns (some c) run l =
      (if minMatchLength ≤ (run ++ (l.takeWhile fun q => decide (q.2 = some c)).map Prod.fst).length
        then [run ++ (l.takeWhile fun q => decide (q.2 = some c)).map Prod.fst] else []) ++
        maxRuns (l.dropWhile fun q => decide (q.2 = some c))) ∧
    contRuns none [] l = maxRuns l := by
  intro l
  induction l with
  | nil =>
      constructor
      · intro c run
        simp [contRuns, maxRuns, maxRunsF]
      · simp [contRuns, maxRuns, maxRunsF, minMatchLength]
  | cons pc rest ih =>
      obtain ⟨p, oc⟩ := pc
      obtain ⟨ih1, ih2⟩ := ih
      constructor
      · intro c run
        cases oc with
        | none =>
            have hstep : contRuns (some c) run ((p, none) :: rest) =
                (if minMatchLength ≤ run.length then [run] else []) ++ contRuns none [] rest := by
              simp [contRuns]
            rw [hstep, ih2, List.takeWhile_cons, List.dropWhile_cons]
            simp [maxRuns_cons_none]
        | some c' =>
            by_cases hcc : c' = c
            · subst hcc
              have hstep : contRuns (some c') run ((p, some c') :: rest) =
                  contRuns (some c') (run ++ [p]) rest := by
                simp [contRuns]
              rw [hstep, ih1 c' (run ++ [p]), List.takeWhile_cons, List.dropWhile_cons]
              simp
            · have hcc2 : ¬(c = c') := fun h => hcc h.symm
              have hstep : contRuns (some c) run ((p, some c') :: rest) =
                  (if minMatchLength ≤ run.length then [run] else []) ++
                    contRuns (some c') [p] rest := by
                simp [contRuns, Option.some_inj, hcc2]
              have ht : ((p, some c') :: rest).takeWhile (fun q => decide (q.2 = some c)) = [] := by
                simp [hcc]
              have hd : ((p, some c') :: rest).dropWhile (fun q => decide (q.2 = some c)) =
                  (p, some c') :: rest := by
                simp [hcc]
              rw [hstep, ih1 c' [p], ht, hd, maxRuns_cons_some]
              simp
      · cases oc with
        | none =>
            have hstep : contRuns none [] ((p, none) :: rest) = contRuns none [] rest := by
              simp [contRuns, minMatchLength]
            rw [hstep, ih2, maxRuns_cons_none]
        | some c =>
            have hstep : contRuns none [] ((p, some c) :: rest) = contRuns (some c) [p] rest := by
              simp [contRuns, minMatchLength]
            rw [hstep, ih1 c [p], maxRuns_cons_some]
            simp

/-- The findMatches line scan returns exactly the qualifying maximal runs
of the line. -/
theorem scanLine_eq_maxRuns (l : List (Position × Option Color)) : scanLine l = maxRuns l :=
  (scanLine_eq_contRuns l).trans (contRuns_maxRuns l).2

/-- findMatches computes the specification's matches: the qualifying
maximal runs of every row, then of every column. -/
theorem findMatches_eq_specMatches (b : Grid) : findMatches b = specMatches b := by
  unfold findMatches specMatches
  simp [scanLine_eq_maxRuns]

/-!
Lemmas about the board accessors and the gravity pass.
-/

/-- A successful read is in bounds. -/
theorem getCell_bounds {b : Grid} {x y : Int} {c : Cell} (h : getCell b x y = some c) :
    0 ≤ x ∧ x < 8 ∧ 0 ≤ y ∧ y < 16 := by
  by_contra hc
  unfold getCell at h
  rw [dif_neg hc] at h
  exact Option.noConfusion h

/-- An in-bounds read returns the underlying matrix entry. -/
theorem getCell_in (b : Grid) (x y : Int) (h : 0 ≤ x ∧ x < 8 ∧ 0 ≤ y ∧ y < 16) :
    getCell b x y = some (b ⟨y.toNat, by omega⟩ ⟨x.toNat, by omega⟩) := dif_pos h

/-- Pointwise view of an in-bounds write. -/
theorem setCell_apply (b : Grid) (x y : Int) (c : Cell)
    (h : 0 ≤ x ∧ x < 8 ∧ 0 ≤ y ∧ y < 16) (j : Fin 16) (i : Fin 8) :
    setCell b x y c j i = if j.val = y.toNat ∧ i.val = x.toNat then c else b j i := by
  unfold setCell
  rw [dif_pos h]
  simp [Fin.ext_iff]

/-- An out-of-bounds write is the identity. -/
theorem setCell_out (b : Grid) (x y : Int) (c : Cell)
    (h : ¬(0 ≤ x ∧ x < 8 ∧ 0 ≤ y ∧ y < 16)) : setCell b x y c = b := dif_neg h

/-- Membership in findPillCells names a PILL cell with the sought id. -/
theorem mem_findPillCells {b : Grid} {pid : String} {pos : Position}
    (h : pos ∈ findPillCells b pid) :
    ∃ c, getCell b pos.x pos.y = some c ∧ c.type = CellType.PILL ∧ c.pillId = some pid := by
  unfold findPillCells at h
  rw [List.mem_flatMap] at h
  obtain ⟨y, _, hx⟩ := h
  rw [List.mem_filterMap] at hx
  obtain ⟨x, _, hmatch⟩ := hx
  cases hg : getCell b (x : Int) (y : Int) with
  | none => rw [hg] at hmatch; exact absurd hmatch (by simp)
  | some c =>
      rw [hg] at hmatch
      simp at hmatch
      obtain ⟨⟨ht, hp⟩, rfl⟩ := hmatch
      exact ⟨c, hg, ht, hp⟩

/-- Every PILL cell carrying the sought id is listed by findPillCells. -/
theorem findPillCells_mem {b : Grid} {pid : String} {x y : Int} {c : Cell}
    (hg : getCell b x y = some c) (ht : c.type = CellType.PILL) (hp : c.pillId = some pid) :
    (⟨x, y⟩ : Position) ∈ findPillCells b pid := by
  have hb := getCell_bounds hg
  unfold findPillCells
  rw [List.mem_flatMap]
  refine ⟨y.toNat, by rw [List.mem_range]; omega, ?_⟩
  rw [List.mem_filterMap]
  refine ⟨x.toNat, by rw [List.mem_range]; omega, ?_⟩
  have hx' : ((x.toNat : Int)) = x := by omega
  have hy' : ((y.toNat : Int)) = y := by omega
  rw [hx', hy', hg]
  simp [ht, hp]

/-- What a positive canPillFall check says about each group cell. -/
theorem canPillFall_spec {b : Grid} {cells : List Position} (h : canPillFall b cells = true)
    {pos : Position} (hm : pos ∈ cells) :
    pos.y < 15 ∧ ∀ below, getCell b pos.x (pos.y + 1) = some below →
      below.type = CellType.EMPTY ∨ below.type = CellType.PILL := by
  unfold canPillFall at h
  rw [List.all_eq_true] at h
  have h2 := h pos hm
  by_cases h15 : (15 : Int) ≤ pos.y
  · rw [if_pos h15] at h2
    exact absurd h2 (by simp)
  · rw [if_neg h15] at h2
    refine ⟨by omega, ?_⟩
    intro below hg
    rw [hg] at h2
    simp at h2
    rcases h2 with h2 | h2
    · exact Or.inl h2
    · exact Or.inr h2.1

/-- A group with a cell on the bottom row cannot fall. -/
theorem canPillFall_false_of_bottom {b : Grid} {cells : List Position} {pos : Position}
    (hm : pos ∈ cells) (h15 : (15 : Int) ≤ pos.y) : canPillFall b cells = false := by
  cases hall : canPillFall b cells with
  | false => rfl
  | true =>
      exfalso
      unfold canPillFall at hall
      rw [List.all_eq_true] at hall
      have h2 := hall pos hm
      rw [if_pos h15] at h2
      exact absurd h2 (by simp)

/-- What a positive canSingleBlockFall check says. -/
theorem canSingleBlockFall_spec {b : Grid} {x y : Int} (h : canSingleBlockFall b x y = true) :
    ∀ below, getCell b x (y + 1) = some below → below.type = CellType.EMPTY := by
  intro below hg
  unfold canSingleBlockFall at h
  by_cases h15 : (15 : Int) ≤ y
  · rw [if_pos h15] at h
    exact absurd h (by simp)
  · rw [if_neg h15, hg] at h
    exact of_decide_eq_true h

/-- A negative in-bounds canSingleBlockFall check above the floor names a
non-empty cell below. -/
theorem canSingleBlockFall_false_spec {b : Grid} {x y : Int}
    (h : canSingleBlockFall b x y = false) (hx0 : 0 ≤ x) (hx : x < 8) (hy0 : 0 ≤ y)
    (hy : y < 15) : ∃ below, getCell b x (y + 1) = some below ∧ below.type ≠ CellType.EMPTY := by
  unfold canSingleBlockFall at h
  rw [if_neg (by omega : ¬(15 : Int) ≤ y)] at h
  have hin : getCell b x (y + 1) =
      some (b ⟨(y + 1).toNat, by omega⟩ ⟨x.toNat, by omega⟩) :=
    getCell_in b x (y + 1) (by omega)
  rw [hin] at h
  exact ⟨_, hin, by simpa using h⟩

/-- Insertion keeps exactly the old elements plus the new one. -/
theorem mem_insertByYDesc {q p : Position} : ∀ l : List Position,
    q ∈ insertByYDesc p l ↔ q = p ∨ q ∈ l := by
  intro l
  induction l with
  | nil => simp [insertByYDesc]
  | cons r rest ih =>
      unfold insertByYDesc
      split
      · simp
      · simp [ih]
        tauto

/-- Sorting by descending y is a permutation for membership purposes. -/
theorem mem_sortByYDesc {q : Position} : ∀ l : List Position, q ∈ sortByYDesc l ↔ q ∈ l := by
  intro l
  induction l with
  | nil => simp [sortByYDesc]
  | cons p rest ih =>
      unfold sortByYDesc
      rw [mem_insertByYDesc]
      simp [ih]

/-- noVirusChange is reflexive. -/
theorem nvc_refl (b : Grid) : noVirusChange b b := fun _ _ h => absurd rfl h

/-- noVirusChange composes. -/
theorem nvc_trans {b0 b1 b2 : Grid} (h1 : noVirusChange b0 b1) (h2 : noVirusChange b1 b2) :
    noVirusChange b0 b2 := by
  intro j i hne
  by_cases he : b1 j i = b0 j i
  · have r2 := h2 j i (by rw [he]; exact hne)
    exact ⟨by rw [← he]; exact r2.1, r2.2⟩
  · have r1 := h1 j i he
    by_cases he2 : b2 j i = b1 j i
    · exact ⟨r1.1, by rw [he2]; exact r1.2⟩
    · exact ⟨r1.1, (h2 j i he2).2⟩

/-- Writing a non-virus value over a non-virus square preserves
noVirusChange from the reference board. -/
theorem setCell_nvc {b0 bb : Grid} (hnvc : noVirusChange b0 bb) (x y : Int) (c : Cell)
    (hcv : c.type ≠ CellType.VIRUS)
    (hold : ∀ cOld, getCell b0 x y = some cOld → cOld.type ≠ CellType.VIRUS) :
    noVirusChange b0 (setCell bb x y c) := by
  intro j i hne
  by_cases hin : 0 ≤ x ∧ x < 8 ∧ 0 ≤ y ∧ y < 16
  · rw [setCell_apply bb x y c hin] at hne ⊢
    by_cases ht : j.val = y.toNat ∧ i.val = x.toNat
    · rw [if_pos ht] at hne ⊢
      refine ⟨?_, hcv⟩
      have hread : getCell b0 x y = some (b0 j i) := by
        rw [getCell_in b0 x y hin]
        have e1 : (⟨y.toNat, by omega⟩ : Fin 16) = j := Fin.ext ht.1.symm
        have e2 : (⟨x.toNat, by omega⟩ : Fin 8) = i := Fin.ext ht.2.symm
        rw [e1, e2]
      exact hold _ hread
    · rw [if_neg ht] at hne ⊢
      exact hnvc j i hne
  · rw [setCell_out bb x y c hin] at hne ⊢
    exact hnvc j i hne

/-- Clearing a list of squares whose reference-board cells are non-virus
preserves noVirusChange. -/
theorem foldl_clear_nvc {b0 : Grid} (ps : List Position) :
    ∀ bb : Grid, noVirusChange b0 bb →
    (∀ pos ∈ ps, ∀ cOld, getCell b0 pos.x pos.y = some cOld → cOld.type ≠ CellType.VIRUS) →
    noVirusChange b0 (ps.foldl (fun g pos => setCell g pos.x pos.y emptyCell) bb) := by
  induction ps with
  | nil => intro bb hb _; exact hb
  | cons p rest ih =>
      intro bb hb hall
      rw [List.foldl_cons]
      exact ih _ (setCell_nvc hb p.x p.y emptyCell (by decide) (hall p (by simp)))
        fun pos hm => hall pos (by simp [hm])

/-- Writing non-virus values one row below squares whose reference-board
destinations are non-virus preserves noVirusChange. -/
theorem foldl_write_nvc {b0 : Grid} (pd : List (Position × Cell)) :
    ∀ bb : Grid, noVirusChange b0 bb →
    (∀ pc ∈ pd, pc.2.type ≠ CellType.VIRUS ∧
      ∀ cOld, getCell b0 pc.1.x (pc.1.y + 1) = some cOld → cOld.type ≠ CellType.VIRUS) →
    noVirusChange b0 (pd.foldl (fun g pc => setCell g pc.1.x (pc.1.y + 1) pc.2) bb) := by
  induction pd with
  | nil => intro bb hb _; exact hb
  | cons p rest ih =>
      intro bb hb hall
      rw [List.foldl_cons]
      exact ih _ (setCell_nvc hb p.1.x (p.1.y + 1) p.2 (hall p (by simp)).1
        (hall p (by simp)).2) fun pc hm => hall pc (by simp [hm])

/-- movePillDown touches only the group's squares and the empty or
same-group squares below them, so viruses are untouched. -/
theorem movePillDown_nvc {b : Grid} {cells : List Position}
    (hfall : canPillFall b cells = true)
    (hcells : ∀ pos ∈ cells, ∃ c, getCell b pos.x pos.y = some c ∧ c.type = CellType.PILL) :
    noVirusChange b (movePillDown b cells) := by
  unfold movePillDown
  apply foldl_write_nvc
  · apply foldl_clear_nvc
    · exact nvc_refl b
    · intro pos hm cOld hgOld
      obtain ⟨c, hg, ht⟩ := hcells pos ((mem_sortByYDesc cells).mp hm)
      rw [hg] at hgOld
      obtain rfl := Option.some_inj.mp hgOld
      rw [ht]
      decide
  · intro pc hm
    rw [List.mem_map] at hm
    obtain ⟨pos, hpos, rfl⟩ := hm
    have hpos' := (mem_sortByYDesc cells).mp hpos
    constructor
    · obtain ⟨c, hg, ht⟩ := hcells pos hpos'
      rw [hg]
      simp [Option.getD, ht]
    · intro cOld hgOld
      rcases (canPillFall_spec hfall hpos').2 cOld hgOld with he | hp
      · rw [he]; decide
      · rw [hp]; decide

/-- moveSingleBlockDown moves a PILL cell onto an empty square, so viruses
are untouched. -/
theorem moveSingleBlockDown_nvc {b : Grid} {x y : Int} {cell : Cell}
    (hg : getCell b x y = some cell) (ht : cell.type = CellType.PILL)
    (hf : canSingleBlockFall b x y = true) :
    noVirusChange b (moveSingleBlockDown b x y) := by
  unfold moveSingleBlockDown
  rw [hg]
  apply setCell_nvc
  · apply setCell_nvc (nvc_refl b)
    · decide
    · intro cOld hgOld
      rw [hg] at hgOld
      obtain rfl := Option.some_inj.mp hgOld
      rw [ht]
      decide
  · rw [ht]; decide
  · intro cOld hgOld
    rw [canSingleBlockFall_spec hf cOld hgOld]
    decide

/-- The group branch of one gravity visit never changes a virus cell. -/
theorem gravityGroupStep_nvc (s : GravState) (pid : String) :
    noVirusChange s.board (gravityGroupStep s pid).board := by
  unfold gravityGroupStep
  split
  · exact nvc_refl _
  · dsimp only
    split
    · apply movePillDown_nvc (by assumption)
      intro pos hm
      obtain ⟨c, hgc, htc, _⟩ := mem_findPillCells hm
      exact ⟨c, hgc, htc⟩
    · exact nvc_refl _

/-- The single-block branch of one gravity visit never changes a virus
cell, provided the visited cell is a PILL. -/
theorem gravitySingleStep_nvc (s : GravState) (x y : Int) {cell : Cell}
    (hg : getCell s.board x y = some cell) (ht : cell.type = CellType.PILL) :
    noVirusChange s.board (gravitySingleStep s x y).board := by
  unfold gravitySingleStep
  split
  · exact moveSingleBlockDown_nvc hg ht (by assumption)
  · exact nvc_refl _

/-- One applyGravity visit never changes a virus cell. -/
theorem gravityStep_nvc (s : GravState) (xy : Int × Int) :
    noVirusChange s.board (gravityStep s xy).board := by
  unfold gravityStep
  split
  · exact nvc_refl _
  · rename_i cell hg
    split
    · rename_i ht
      split
      · split
        · exact gravitySingleStep_nvc s xy.1 xy.2 hg ht
        · exact gravityGroupStep_nvc s _
      · exact gravitySingleStep_nvc s xy.1 xy.2 hg ht
    · exact nvc_refl _

/-- A gravity pass never changes a virus cell. -/
theorem gravityFold_nvc (l : List (Int × Int)) :
    ∀ s : GravState, noVirusChange s.board ((l.foldl gravityStep s).board) := by
  induction l with
  | nil => intro s; exact nvc_refl _
  | cons xy rest ih =>
      intro s
      rw [List.foldl_cons]
      exact nvc_trans (gravityStep_nvc s xy) (ih (gravityStep s xy))

/-- applyGravity never changes a virus cell. -/
theorem applyGravity_nvc (b : Grid) : noVirusChange b (applyGravity b).1 := by
  simp only [applyGravity]
  exact gravityFold_nvc gravityCoords ⟨b, false, []⟩

/-- gravityStep on an out-of-bounds square is the identity. -/
theorem gravityStep_eq_none {s : GravState} {xy : Int × Int}
    (hg : getCell s.board xy.1 xy.2 = none) : gravityStep s xy = s := by
  unfold gravityStep
  rw [hg]

/-- gravityStep on an EMPTY or VIRUS square is the identity. -/
theorem gravityStep_eq_skip {s : GravState} {xy : Int × Int} {cell : Cell}
    (hg : getCell s.board xy.1 xy.2 = some cell) (ht : cell.type ≠ CellType.PILL) :
    gravityStep s xy = s := by
  unfold gravityStep
  rw [hg]
  simp [ht]

/-- gravityStep on an untagged PILL square takes the single-block branch. -/
theorem gravityStep_eq_single_none {s : GravState} {xy : Int × Int} {cell : Cell}
    (hg : getCell s.board xy.1 xy.2 = some cell) (ht : cell.type = CellType.PILL)
    (hp : cell.pillId = none) : gravityStep s xy = gravitySingleStep s xy.1 xy.2 := by
  unfold gravityStep
  rw [hg]
  simp [ht, hp]

/-- gravityStep on a PILL square with a falsy (empty-string) id takes the
single-block branch. -/
theorem gravityStep_eq_single_empty {s : GravState} {xy : Int × Int} {cell : Cell} {pid : String}
    (hg : getCell s.board xy.1 xy.2 = some cell) (ht : cell.type = CellType.PILL)
    (hp : cell.pillId = some pid) (he : pid.isEmpty = true) :
    gravityStep s xy = gravitySingleStep s xy.1 xy.2 := by
  unfold gravityStep
  rw [hg]
  simp [ht, hp, he]

/-- gravityStep on a tagged PILL square takes the group branch. -/
theorem gravityStep_eq_group {s : GravState} {xy : Int × Int} {cell : Cell} {pid : String}
    (hg : getCell s.board xy.1 xy.2 = some cell) (ht : cell.type = CellType.PILL)
    (hp : cell.pillId = some pid) (he : pid.isEmpty = false) :
    gravityStep s xy = gravityGroupStep s pid := by
  unfold gravityStep
  rw [hg]
  simp [ht, hp, he]

/-- A blocked single block leaves the state untouched. -/
theorem gravitySingleStep_eq_stay {s : GravState} {x y : Int}
    (hc : canSingleBlockFall s.board x y = false) : gravitySingleStep s x y = s := by
  unfold gravitySingleStep
  simp [hc]

/-- A single-block visit that reports no movement did nothing and its
block cannot fall. -/
theorem gravitySingleStep_no_move {s : GravState} {x y : Int}
    (h : (gravitySingleStep s x y).moved = false) :
    gravitySingleStep s x y = s ∧ canSingleBlockFall s.board x y = false := by
  cases hc : canSingleBlockFall s.board x y with
  | false => exact ⟨gravitySingleStep_eq_stay hc, rfl⟩
  | true =>
      exfalso
      unfold gravitySingleStep at h
      simp [hc] at h

/-- A group visit that reports no movement keeps the board, only grows the
processed set, and certifies that every newly recorded group cannot fall. -/
theorem gravityGroupStep_no_move {s : GravState} {pid : String}
    (h : (gravityGroupStep s pid).moved = false) :
    (gravityGroupStep s pid).board = s.board ∧
    (∀ q ∈ s.processed, q ∈ (gravityGroupStep s pid).processed) ∧
    (∀ q ∈ (gravityGroupStep s pid).processed, q ∈ s.processed ∨
      canPillFall s.board (findPillCells s.board q) = false) ∧
    pid ∈ (gravityGroupStep s pid).processed := by
  by_cases hin : pid ∈ s.processed
  · have he : gravityGroupStep s pid = s := by
      unfold gravityGroupStep
      simp [hin]
    rw [he]
    exact ⟨rfl, fun q hq => hq, fun q hq => Or.inl hq, hin⟩
  · cases hf : canPillFall s.board (findPillCells s.board pid) with
    | true =>
        exfalso
        unfold gravityGroupStep at h
        simp [hin, hf] at h
    | false =>
        have he : gravityGroupStep s pid = ⟨s.board, s.moved, pid :: s.processed⟩ := by
          unfold gravityGroupStep
          simp [hin, hf]
        rw [he]
        refine ⟨rfl, fun q hq => List.mem_cons_of_mem _ hq, ?_, List.mem_cons_self _ _⟩
        intro q hq
        rcases List.mem_cons.mp hq with rfl | hq2
        · exact Or.inr hf
        · exact Or.inl hq2

/-- The moved flag never resets within a single-block visit. -/
theorem gravitySingleStep_moved_mono {s : GravState} (x y : Int) (h : s.moved = true) :
    (gravitySingleStep s x y).moved = true := by
  unfold gravitySingleStep
  split
  · rfl
  · exact h

/-- The moved flag never resets within a group visit. -/
theorem gravityGroupStep_moved_mono {s : GravState} (pid : String) (h : s.moved = true) :
    (gravityGroupStep s pid).moved = true := by
  unfold gravityGroupStep
  split
  · exact h
  · dsimp only
    split
    · rfl
    · exact h

/-- The moved flag never resets within one visit. -/
theorem gravityStep_moved_mono (s : GravState) (xy : Int × Int) (h : s.moved = true) :
    (gravityStep s xy).moved = true := by
  unfold gravityStep
  split
  · exact h
  · split
    · split
      · split
        · exact gravitySingleStep_moved_mono xy.1 xy.2 h
        · exact gravityGroupStep_moved_mono _ h
      · exact gravitySingleStep_moved_mono xy.1 xy.2 h
    · exact h

/-- The moved flag never resets across a pass. -/
theorem gravityFold_moved_mono (l : List (Int × Int)) :
    ∀ s : GravState, s.moved = true → (l.foldl gravityStep s).moved = true := by
  induction l with
  | nil => intro s h; exact h
  | cons xy rest ih =>
      intro s h
      rw [List.foldl_cons]
      exact ih _ (gravityStep_moved_mono s xy h)

/-- visitOK only constrains membership, so it is monotone in the
processed set. -/
theorem visitOK_mono {b : Grid} {P1 P2 : List String} (hsub : ∀ q ∈ P1, q ∈ P2) {x y : Int}
    (h : visitOK b P1 x y) : visitOK b P2 x y := by
  intro c hc ht
  obtain ⟨h1, h2⟩ := h c hc ht
  exact ⟨fun pid hp hne => hsub pid (h1 pid hp hne), h2⟩

/-- One visit that reports no movement: the board is unchanged, the
processed set only grows and certifies its new entries, and the visited
square satisfies visitOK. -/
theorem gravityStep_no_move (s : GravState) (xy : Int × Int)
    (h : (gravityStep s xy).moved = false) :
    (gravityStep s xy).board = s.board ∧
    (∀ q ∈ s.processed, q ∈ (gravityStep s xy).processed) ∧
    (∀ q ∈ (gravityStep s xy).processed, q ∈ s.processed ∨
      canPillFall s.board (findPillCells s.board q) = false) ∧
    visitOK s.board (gravityStep s xy).processed xy.1 xy.2 := by
  cases hg : getCell s.board xy.1 xy.2 with
  | none =>
      rw [gravityStep_eq_none hg]
      refine ⟨rfl, fun q hq => hq, fun q hq => Or.inl hq, ?_⟩
      intro c hc
      rw [hg] at hc
      exact absurd hc (by simp)
  | some cell =>
      by_cases ht : cell.type = CellType.PILL
      · have hsingleOK : ∀ hint : gravityStep s xy = gravitySingleStep s xy.1 xy.2,
            (gravityStep s xy).board = s.board ∧
            (∀ q ∈ s.processed, q ∈ (gravityStep s xy).processed) ∧
            (∀ q ∈ (gravityStep s xy).processed, q ∈ s.processed ∨
              canPillFall s.board (findPillCells s.board q) = false) ∧
            canSingleBlockFall s.board xy.1 xy.2 = false := by
          intro hint
          rw [hint] at h ⊢
          obtain ⟨heq, hcf⟩ := gravitySingleStep_no_move h
          rw [heq]
          exact ⟨rfl, fun q hq => hq, fun q hq => Or.inl hq, hcf⟩
        cases hp : cell.pillId with
        | none =>
            obtain ⟨hb, hsub, hnew, hcf⟩ := hsingleOK (gravityStep_eq_single_none hg ht hp)
            refine ⟨hb, hsub, hnew, ?_⟩
            intro c hc _
            obtain rfl : cell = c := Option.some_inj.mp (hg.symm.trans hc)
            constructor
            · intro pid hpid
              rw [hp] at hpid
              exact absurd hpid (by simp)
            · intro _
              exact hcf
        | some pid =>
            cases he : pid.isEmpty with
            | true =>
                obtain ⟨hb, hsub, hnew, hcf⟩ :=
                  hsingleOK (gravityStep_eq_single_empty hg ht hp he)
                refine ⟨hb, hsub, hnew, ?_⟩
                intro c hc _
                obtain rfl : cell = c := Option.some_inj.mp (hg.symm.trans hc)
                constructor
                · intro pid' hpid' hne
                  rw [hp] at hpid'
                  obtain rfl := Option.some_inj.mp hpid'
                  exact absurd he (by rw [hne]; simp)
                · intro _
                  exact hcf
            | false =>
                rw [gravityStep_eq_group hg ht hp he] at h ⊢
                obtain ⟨hb, hsub, hnew, hmem⟩ := gravityGroupStep_no_move h
                refine ⟨hb, hsub, hnew, ?_⟩
                intro c hc _
                obtain rfl : cell = c := Option.some_inj.mp (hg.symm.trans hc)
                constructor
                · intro pid' hpid' _
                  rw [hp] at hpid'
                  obtain rfl := Option.some_inj.mp hpid'
                  exact hmem
                · intro hstr
                  rw [hp] at hstr
                  simp [strTruthy, he] at hstr
      · rw [gravityStep_eq_skip hg ht]
        refine ⟨rfl, fun q hq => hq, fun q hq => Or.inl hq, ?_⟩
        intro c hc htc
        obtain rfl : cell = c := Option.some_inj.mp (hg.symm.trans hc)
        exact absurd htc ht

/-- A whole pass that reports no movement: the board is untouched, every
recorded group cannot fall, and every visited square satisfies visitOK
with respect to the final processed set. -/
theorem gravityFold_no_move (l : List (Int × Int)) :
    ∀ (b : Grid) (P : List String),
    (l.foldl gravityStep ⟨b, false, P⟩).moved = false →
    (l.foldl gravityStep ⟨b, false, P⟩).board = b ∧
    (∀ q ∈ P, q ∈ (l.foldl gravityStep ⟨b, false, P⟩).processed) ∧
    (∀ q ∈ (l.foldl gravityStep ⟨b, false, P⟩).processed,
      q ∈ P ∨ canPillFall b (findPillCells b q) = false) ∧
    (∀ xy ∈ l, visitOK b (l.foldl gravityStep ⟨b, false, P⟩).processed xy.1 xy.2) := by
  induction l with
  | nil =>
      intro b P _
      exact ⟨rfl, fun q hq => hq, fun q hq => Or.inl hq, fun xy hxy => absurd hxy (by simp)⟩
  | cons xy rest ih =>
      intro b P h
      rw [List.foldl_cons] at h ⊢
      have hm1 : (gravityStep ⟨b, false, P⟩ xy).moved = false := by
        cases hmm : (gravityStep ⟨b, false, P⟩ xy).moved with
        | false => rfl
        | true =>
            exfalso
            have := gravityFold_moved_mono rest _ hmm
            rw [this] at h
            exact Bool.noConfusion h
      obtain ⟨hb1, hsub1, hnew1, hvis1⟩ := gravityStep_no_move ⟨b, false, P⟩ xy hm1
      have hs1eta : gravityStep ⟨b, false, P⟩ xy =
          ⟨b, false, (gravityStep ⟨b, false, P⟩ xy).processed⟩ := by
        calc gravityStep ⟨b, false, P⟩ xy
            = ⟨(gravityStep ⟨b, false, P⟩ xy).board, (gravityStep ⟨b, false, P⟩ xy).moved,
                (gravityStep ⟨b, false, P⟩ xy).processed⟩ := rfl
          _ = ⟨b, false, (gravityStep ⟨b, false, P⟩ xy).processed⟩ := by rw [hb1, hm1]
      rw [hs1eta] at h ⊢
      obtain ⟨ihb, ihsub, ihnew, ihvis⟩ := ih b (gravityStep ⟨b, false, P⟩ xy).processed h
      refine ⟨ihb, ?_, ?_, ?_⟩
      · intro q hq
        exact ihsub q (hsub1 q hq)
      · intro q hq
        rcases ihnew q hq with hin | hfall
        · rcases hnew1 q hin with hin2 | hfall2
          · exact Or.inl hin2
          · exact Or.inr hfall2
        · exact Or.inr hfall
      · intro xy' hxy
        rcases List.mem_cons.mp hxy with rfl | hmem
        · exact visitOK_mono ihsub hvis1
        · exact ihvis xy' hmem

/-- Every interior coordinate is visited by the gravity pass. -/
theorem mem_gravityCoords {x y : Int} (hx0 : 0 ≤ x) (hx : x < 8) (hy0 : 0 ≤ y) (hy : y < 15) :
    (x, y) ∈ gravityCoords := by
  unfold gravityCoords
  rw [List.mem_flatMap]
  refine ⟨y.toNat, ?_, ?_⟩
  · rw [List.mem_reverse, List.mem_range]
    omega
  · rw [List.mem_map]
    refine ⟨x.toNat, by rw [List.mem_range]; omega, ?_⟩
    have hx' : ((x.toNat : Int)) = x := by omega
    have hy' : ((y.toNat : Int)) = y := by omega
    rw [hx', hy']

/-- A no-movement applyGravity call leaves the grid unchanged, and then
every untagged pill block rests on something and no tagged pill group can
fall. -/
theorem applyGravity_no_move {b b2 : Grid} (h : applyGravity b = (b2, false)) :
    b2 = b ∧
    (∀ (x y : Int) (c : Cell), getCell b x y = some c → c.type = CellType.PILL →
      strTruthy c.pillId = false → y < 15 →
      ∃ below, getCell b x (y + 1) = some below ∧ below.type ≠ CellType.EMPTY) ∧
    (∀ (x y : Int) (c : Cell) (pid : String), getCell b x y = some c →
      c.type = CellType.PILL → c.pillId = some pid → pid.isEmpty = false →
      canPillFall b (findPillCells b pid) = false) := by
  have hmoved : (gravityCoords.foldl gravityStep ⟨b, false, []⟩).moved = false := by
    have h2 : (applyGravity b).2 = false := by rw [h]
    simpa [applyGravity] using h2
  have hboard : (gravityCoords.foldl gravityStep ⟨b, false, []⟩).board = b2 := by
    have h1 : (applyGravity b).1 = b2 := by rw [h]
    simpa [applyGravity] using h1
  obtain ⟨hb, _, hnew, hvis⟩ := gravityFold_no_move gravityCoords b [] hmoved
  refine ⟨by rw [← hboard, hb], ?_, ?_⟩
  · intro x y c hg ht hstr hy
    have hbnd := getCell_bounds hg
    have hOK := hvis (x, y) (mem_gravityCoords hbnd.1 hbnd.2.1 hbnd.2.2.1 hy)
    have h2 := (hOK c hg ht).2 hstr
    exact canSingleBlockFall_false_spec h2 hbnd.1 hbnd.2.1 hbnd.2.2.1 hy
  · intro x y c pid hg ht hp he
    have hbnd := getCell_bounds hg
    by_cases hy : y < 15
    · have hOK := hvis (x, y) (mem_gravityCoords hbnd.1 hbnd.2.1 hbnd.2.2.1 hy)
      have hid := (hOK c hg ht).1 pid hp he
      rcases hnew pid hid with hin | hfall
      · exact absurd hin (by simp)
      · exact hfall
    · have hmm : (⟨x, y⟩ : Position) ∈ findPillCells b pid := findPillCells_mem hg ht hp
      have h15 : (15 : Int) ≤ (⟨x, y⟩ : Position).y := by
        show (15 : Int) ≤ y
        omega
      exact canPillFall_false_of_bottom hmm h15

/-!
Lemmas about clearMatches and processMatches on matchless grids.
-/

/-- Clearing an empty match list does nothing. -/
theorem clearMatches_nil (b : Grid) : clearMatches b [] = (b, 0, []) := rfl

/-- The gravity loop stops at a fixed point of applyGravity. -/
theorem gravityLoop_stable {b : Grid} (fuel : Nat) (hs : (applyGravity b).2 = false)
    (hb : (applyGravity b).1 = b) : gravityLoop (fuel + 1) b = b := by
  simp [gravityLoop, hs, hb]

/-- processMatches on a grid with no matches and no movable cell returns
the grid unchanged with a zero count and no splits. -/
theorem processMatches_no_match {b : Grid} (hm : findMatches b = [])
    (hs : (applyGravity b).2 = false) : processMatches b = (b, 0, [], []) := by
  have hpair : applyGravity b = ((applyGravity b).1, false) := by
    rw [← hs]
  have hb : (applyGravity b).1 = b := (applyGravity_no_move hpair).1
  have hexp : processMatches b = (gravityLoop 2048 (clearMatches b (findMatches b)).1,
      (clearMatches b (findMatches b)).2.1, findMatches b,
      (clearMatches b (findMatches b)).2.2) := rfl
  rw [hexp, hm, clearMatches_nil]
  have h2048 : gravityLoop 2048 b = b := gravityLoop_stable 2047 hs hb
  simp [h2048]

/-!
Lemmas about movement legality (canMove).
-/

/-- isEmpty succeeds exactly on an in-bounds EMPTY cell. -/
theorem isEmpty_true_iff {b : Grid} {x y : Int} :
    isEmpty b x y = true ↔ ∃ c, getCell b x y = some c ∧ c.type = CellType.EMPTY := by
  unfold isEmpty
  cases hg : getCell b x y with
  | none => simp
  | some c => simp

/-- The per-cell movement test succeeds exactly on an in-bounds EMPTY
destination. -/
theorem validEmpty_iff {b : Grid} {nx ny : Int} :
    (isValidPosition nx ny && isEmpty b nx ny) = true ↔
      ∃ c, getCell b nx ny = some c ∧ c.type = CellType.EMPTY := by
  rw [Bool.and_eq_true]
  constructor
  · rintro ⟨_, h2⟩
    exact isEmpty_true_iff.mp h2
  · intro h
    refine ⟨?_, isEmpty_true_iff.mpr h⟩
    obtain ⟨c, hg, _⟩ := h
    have hb := getCell_bounds hg
    simpa [isValidPosition] using hb

/-!
Lemmas about virus generation and spawning (startGame / spawnNextPill).
-/

/-- A write at a different square is invisible to getCell. -/
theorem getCell_setCell_ne {bb : Grid} {xw yw : Int} {c : Cell} {x y : Int}
    (hne : ¬(x = xw ∧ y = yw)) : getCell (setCell bb xw yw c) x y = getCell bb x y := by
  by_cases hinw : 0 ≤ xw ∧ xw < 8 ∧ 0 ≤ yw ∧ yw < 16
  · by_cases hin : 0 ≤ x ∧ x < 8 ∧ 0 ≤ y ∧ y < 16
    · rw [getCell_in _ x y hin, getCell_in _ x y hin]
      congr 1
      rw [setCell_apply bb xw yw c hinw]
      rw [if_neg ?_]
      intro hcond
      have h1 : y.toNat = yw.toNat := hcond.1
      have h2 : x.toNat = xw.toNat := hcond.2
      exact hne ⟨by omega, by omega⟩
    · unfold getCell
      rw [dif_neg hin, dif_neg hin]
  · rw [setCell_out bb xw yw c hinw]

/-- Viruses placed at rows 8 and below leave the top row untouched. -/
theorem addViruses_row0 : ∀ vs : List Virus, (∀ v ∈ vs, 8 ≤ v.position.y) →
    ∀ (b : Grid) (x : Int), getCell (addViruses b vs) x 0 = getCell b x 0 := by
  intro vs
  induction vs with
  | nil => intro _ b x; rfl
  | cons v rest ih =>
      intro hvs b x
      have hrest : ∀ w ∈ rest, 8 ≤ w.position.y :=
        fun w hw => hvs w (List.mem_cons_of_mem _ hw)
      have hv : 8 ≤ v.position.y := hvs v (List.mem_cons_self _ _)
      unfold addViruses
      rw [List.foldl_cons]
      have h1 := ih hrest (if isValidPosition v.position.x v.position.y then
          setCell b v.position.x v.position.y ⟨CellType.VIRUS, some v.color, none⟩
        else b) x
      unfold addViruses at h1
      rw [h1]
      split
      · refine getCell_setCell_ne ?_
        intro hc
        obtain ⟨_, h0⟩ := hc
        omega
      · rfl

/-- virusAttempt does not touch the board. -/
theorem virusAttempt_board : ∀ (fuel : Nat) (s : EngineState),
    (virusAttempt fuel s).2.board = s.board := by
  intro fuel
  induction fuel with
  | zero => intro s; rfl
  | succ f ih =>
      intro s
      unfold virusAttempt
      dsimp only
      split
      · rfl
      · exact ih _

/-- Every virus virusAttempt produces sits at row 8 or below. -/
theorem virusAttempt_some_y : ∀ (fuel : Nat) (s : EngineState) (v : Virus) (s2 : EngineState),
    virusAttempt fuel s = (some v, s2) → 8 ≤ v.position.y := by
  intro fuel
  induction fuel with
  | zero =>
      intro s v s2 h
      simp [virusAttempt, Prod.ext_iff] at h
  | succ f ih =>
      intro s v s2 h
      unfold virusAttempt at h
      dsimp only at h
      split at h
      · rw [Prod.ext_iff] at h
        obtain ⟨h1, _⟩ := h
        obtain rfl := Option.some_inj.mp h1
        dsimp only
        omega
      · exact ih _ v s2 h

/-- genVirusList does not touch the board. -/
theorem genVirusList_board : ∀ (n : Nat) (s : EngineState) (acc : List Virus),
    (genVirusList n s acc).2.board = s.board := by
  intro n
  induction n with
  | zero => intro s acc; rfl
  | succ m ih =>
      intro s acc
      have hunf : genVirusList (m + 1) s acc =
          (match (virusAttempt 100 s).1 with
           | some v => genVirusList m (virusAttempt 100 s).2 (acc ++ [v])
           | none => genVirusList m (virusAttempt 100 s).2 acc) := rfl
      rw [hunf]
      generalize hr : virusAttempt 100 s = r
      have hboard : r.2.board = s.board := by
        rw [← hr]
        exact virusAttempt_board 100 s
      cases hv : r.1 with
      | some v =>
          rw [show (match some v with
              | some w => genVirusList m r.2 (acc ++ [w])
              | none => genVirusList m r.2 acc) = genVirusList m r.2 (acc ++ [v]) from rfl]
          rw [ih]
          exact hboard
      | none =>
          rw [show (match (none : Option Virus) with
              | some w => genVirusList m r.2 (acc ++ [w])
              | none => genVirusList m r.2 acc) = genVirusList m r.2 acc from rfl]
          rw [ih]
          exact hboard

/-- Every virus genVirusList adds beyond its accumulator sits at row 8 or
below. -/
theorem genVirusList_y : ∀ (n : Nat) (s : EngineState) (acc : List Virus),
    (∀ v ∈ acc, 8 ≤ v.position.y) →
    ∀ v ∈ (genVirusList n s acc).1, 8 ≤ v.position.y := by
  intro n
  induction n with
  | zero => intro s acc hacc; exact hacc
  | succ m ih =>
      intro s acc hacc
      have hunf : genVirusList (m + 1) s acc =
          (match (virusAttempt 100 s).1 with
           | some v => genVirusList m (virusAttempt 100 s).2 (acc ++ [v])
           | none => genVirusList m (virusAttempt 100 s).2 acc) := rfl
      rw [hunf]
      generalize hr : virusAttempt 100 s = r
      cases hv : r.1 with
      | some v0 =>
          rw [show (match some v0 with
              | some w => genVirusList m r.2 (acc ++ [w])
              | none => genVirusList m r.2 acc) = genVirusList m r.2 (acc ++ [v0]) from rfl]
          apply ih
          intro w hw
          rcases List.mem_append.mp hw with hw1 | hw2
          · exact hacc w hw1
          · have hpair : virusAttempt 100 s = (some v0, r.2) := by
              rw [hr, ← hv]
            obtain rfl : w = v0 := by simpa using hw2
            exact virusAttempt_some_y 100 s w _ hpair
      | none =>
          rw [show (match (none : Option Virus) with
              | some w => genVirusList m r.2 (acc ++ [w])
              | none => genVirusList m r.2 acc) = genVirusList m r.2 acc from rfl]
          exact ih _ acc hacc

/-- generateViruses only adds lower-half viruses to the existing board. -/
theorem generateViruses_board (s : EngineState) (level : Nat) :
    ∃ vs : List Virus, (∀ v ∈ vs, 8 ≤ v.position.y) ∧
      (generateViruses s level).board = addViruses s.board vs := by
  refine ⟨(genVirusList (min (4 + level * 2) 20) s []).1, ?_, ?_⟩
  · exact genVirusList_y _ s [] (by simp)
  · show (generateViruses s level).board = _
    unfold generateViruses
    dsimp only
    rw [genVirusList_board]

/-- After lower-half virus placement on a cleared board, the top row is
still empty. -/
theorem isEmpty_addViruses_row0 {vs : List Virus} (hvs : ∀ v ∈ vs, 8 ≤ v.position.y)
    {x : Int} (hx : 0 ≤ x ∧ x < 8) : isEmpty (addViruses emptyGrid vs) x 0 = true := by
  unfold isEmpty
  rw [addViruses_row0 vs hvs emptyGrid x]
  rw [getCell_in emptyGrid x 0 (by omega)]
  simp [emptyGrid, emptyCell]

/-- A pill at the spawn anchor can occupy its cells when the top row is
empty at columns 3 and 4. -/
theorem spawn_canMove_core {b : Grid} (h3 : isEmpty b 3 0 = true) (h4 : isEmpty b 4 0 = true)
    {np : Pill} (hpos : np.position = ⟨3, 0⟩) (hor : np.orientation = Orientation.HORIZONTAL) :
    (Entity.pill np).canMove b 0 0 = true := by
  simp [Entity.canMove, Pill.canMove, Pill.getPositions, hor, hpos, isValidPosition, h3, h4]

/-- The freshly generated pill spawns at the anchor, horizontally. -/
theorem generateRandomPill_shape (s : EngineState) :
    (generateRandomPill s).1.position = (⟨3, 0⟩ : Position) ∧
      (generateRandomPill s).1.orientation = Orientation.HORIZONTAL := ⟨rfl, rfl⟩

/-- A blocked spawn transitions the engine to GAME_OVER. -/
theorem spawnNextPill_blocked {s : EngineState} {np : Pill} (hn : s.nextPill = some np)
    (hf : s.fallingPills = []) (hb : (Entity.pill np).canMove s.board 0 0 = false) :
    (spawnNextPill s).gameState = GameState.GAME_OVER := by
  unfold spawnNextPill
  rw [hn]
  simp [hf, generateRandomPill, draw, gameOver, hb]

/-- An unblocked spawn leaves the engine state unchanged. -/
theorem spawnNextPill_ok {s : EngineState} {np : Pill} (hn : s.nextPill = some np)
    (hf : s.fallingPills = []) (hb : (Entity.pill np).canMove s.board 0 0 = true) :
    (spawnNextPill s).gameState = s.gameState := by
  unfold spawnNextPill
  rw [hn]
  simp [hf, generateRandomPill, draw, hb]

/-- The initial spawn of startGame is never blocked: the board was cleared
and viruses live in the lower half, so the top row is free. -/
theorem spawn_canMove_after_viruses (s2 : EngineState) (level : Nat) {np : Pill}
    (hpos : np.position = ⟨3, 0⟩) (hor : np.orientation = Orientation.HORIZONTAL)
    (hempty : s2.board = emptyGrid) :
    (Entity.pill np).canMove (generateViruses s2 level).board 0 0 = true := by
  obtain ⟨vs, hvs, hb⟩ := generateViruses_board s2 level
  rw [hb, hempty]
  exact spawn_canMove_core (isEmpty_addViruses_row0 hvs (by omega))
    (isEmpty_addViruses_row0 hvs (by omega)) hpos hor

/-- An unblocked spawn from a PLAYING state stays PLAYING. -/
theorem spawnNextPill_ok_play {s : EngineState} {np : Pill} (hn : s.nextPill = some np)
    (hf : s.fallingPills = []) (hb : (Entity.pill np).canMove s.board 0 0 = true)
    (hg : s.gameState = GameState.PLAYING) :
    (spawnNextPill s).gameState = GameState.PLAYING := by
  rw [spawnNextPill_ok hn hf hb, hg]

/-- startGame always ends in the PLAYING state: it clears the board before
its first spawn, so that spawn cannot be blocked. -/
theorem startGame_gameState (s : EngineState) (level : Nat) :
    (startGame s level).gameState = GameState.PLAYING := by
  unfold startGame
  dsimp only
  apply spawnNextPill_ok_play rfl rfl ?_ rfl
  exact spawn_canMove_after_viruses _ level rfl rfl rfl

/-- A fragment can move exactly onto an in-bounds EMPTY cell. -/
theorem singlePill_canMove_iff (sp : SinglePill) (b : Grid) (dx dy : Int) :
    sp.canMove b dx dy = true ↔
      ∃ c, getCell b (sp.position.x + dx) (sp.position.y + dy) = some c ∧
        c.type = CellType.EMPTY := by
  unfold SinglePill.canMove
  exact validEmpty_iff

/-!
The claims.
-/

set_option maxRecDepth 1000000

/-- C1.  For every grid, findMatches returns, per row and per column,
exactly the maximal sequences of adjacent same-colored non-empty cells
whose length is at least 4: `specMatches` lists, for each of the 16 rows
and then each of the 8 columns, the `maxRuns` of that line — the maximal
same-color occupied blocks (`takeWhile`/`dropWhile` chunking) filtered to
length ≥ `minMatchLength` = 4.  In particular a run of exactly 4 yields
exactly one match of length 4, a run of 3 yields none, and a run of 5
yields the single 5-cell block rather than overlapping 4s; the row scans
and column scans contribute independently, so a cell may appear in both a
horizontal and a vertical run. -/
theorem c1_findMatches_maximal_runs : ∀ b : Grid, findMatches b = specMatches b :=
  findMatches_eq_specMatches

/-- C2.  The partial-clear rule is violated by the code: on
`gDoubleMatch`, findMatches returns a horizontal and a vertical run that
share the red half `(3, 3)` of the two-cell pill "p".  `clearMatches`
counts that shared cell twice when comparing the pill's cleared parts
against its cell count (`clearedParts.length < allPillCells.length` with
2 vs 2), so although the blue half `(4, 3)` is NOT in the clear-set it is
neither recorded as a freed fragment (splits = []) nor cleared from the
grid, while clearedCount = 7 is the size of the unexpanded clear-set. -/
theorem c2_clearMatches_split_bug_eval :
    findMatches gDoubleMatch =
      [[⟨0, 3⟩, ⟨1, 3⟩, ⟨2, 3⟩, ⟨3, 3⟩], [⟨3, 0⟩, ⟨3, 1⟩, ⟨3, 2⟩, ⟨3, 3⟩]] ∧
    getCell gDoubleMatch 3 3 = some pillPR ∧
    getCell gDoubleMatch 4 3 = some pillPB ∧
    (clearMatches gDoubleMatch (findMatches gDoubleMatch)).2.2 = [] ∧
    (clearMatches gDoubleMatch (findMatches gDoubleMatch)).2.1 = 7 ∧
    getCell (clearMatches gDoubleMatch (findMatches gDoubleMatch)).1 3 3 = some emptyCell ∧
    getCell (clearMatches gDoubleMatch (findMatches gDoubleMatch)).1 4 3 = some pillPB := by
  decide

/-- C3 (amended).  applyGravity never changes a virus cell
(`noVirusChange`); and at a gravity fixed point (a call returning false)
the grid is unchanged and: every occupied non-virus cell without a pill
id above the bottom row has a non-Empty cell directly beneath it, while
every identity-tagged pill group fails its whole-group fall test (it has
a cell on the bottom row or a cell resting on something outside the
group).  The unamended claim — no occupied non-virus cell at all has an
Empty cell beneath — fails for half-supported groups, see the
counterexample. -/
theorem c3_gravity_fixed_point :
    (∀ b : Grid, noVirusChange b (applyGravity b).1) ∧
    (∀ b b2 : Grid, applyGravity b = (b2, false) →
      b2 = b ∧
      (∀ (x y : Int) (c : Cell), getCell b x y = some c → c.type = CellType.PILL →
        strTruthy c.pillId = false → y < 15 →
        ∃ below, getCell b x (y + 1) = some below ∧ below.type ≠ CellType.EMPTY) ∧
      (∀ (x y : Int) (c : Cell) (pid : String), getCell b x y = some c →
        c.type = CellType.PILL → c.pillId = some pid → pid.isEmpty = false →
        canPillFall b (findPillCells b pid) = false)) :=
  ⟨applyGravity_nvc, fun _ _ h => applyGravity_no_move h⟩

/-- C3 counterexample.  `gHalfSupported` is a gravity fixed point
(applyGravity returns false and changes nothing), yet the pill cell at
`(1, 14)` — an occupied, non-Infection cell — has the Empty cell
`(1, 15)` directly beneath it: its group hangs from the supported half at
`(0, 14)`. -/
theorem c3_counterexample :
    applyGravity gHalfSupported = (gHalfSupported, false) ∧
    getCell gHalfSupported 1 14 = some pillPB ∧
    getCell gHalfSupported 1 15 = some emptyCell := by
  decide

/-- C3 witness: the stable board `gSettled` satisfies the fixed-point
hypothesis, and the theorem yields the support fact for its loose block. -/
theorem c3_witness :
    applyGravity gSettled = (gSettled, false) ∧
    (∃ below, getCell gSettled 0 (14 + 1) = some below ∧ below.type ≠ CellType.EMPTY) :=
  ⟨by decide,
    (c3_gravity_fixed_point.2 gSettled gSettled (by decide)).2.1 0 14 looseR (by decide)
      (by decide) (by decide) (by decide)⟩

/-- C4 (amended).  On a grid with no qualifying run (`specMatches` empty)
that is also gravity-stable (applyGravity reports no movement),
processMatches returns the grid unchanged, clearedCount 0, no matches and
no splits.  Without gravity-stability clearedCount is still 0 but the
trailing gravity loop settles floating cells, see the counterexample. -/
theorem c4_processMatches_matchless (b : Grid) (hm : specMatches b = [])
    (hs : (applyGravity b).2 = false) : processMatches b = (b, 0, [], []) :=
  processMatches_no_match (by rw [findMatches_eq_specMatches]; exact hm) hs

/-- C4 counterexample.  `gFloating` has no qualifying run, and
processMatches indeed clears nothing — but it does not leave the grid
unchanged: its gravity loop drops the floating block from `(0, 0)` to
`(0, 15)`. -/
theorem c4_counterexample :
    specMatches gFloating = [] ∧
    (processMatches gFloating).2.1 = 0 ∧
    (processMatches gFloating).1 ≠ gFloating ∧
    getCell gFloating 0 0 = some looseR ∧
    getCell (processMatches gFloating).1 0 0 = some emptyCell ∧
    getCell (processMatches gFloating).1 0 15 = some looseR := by
  decide

/-- C4 witness: the stable, matchless board `gSettled` satisfies both
hypotheses and processMatches is a no-op on it. -/
theorem c4_witness :
    specMatches gSettled = [] ∧ (applyGravity gSettled).2 = false ∧
    processMatches gSettled = (gSettled, 0, [], []) :=
  ⟨by decide, by decide, c4_processMatches_matchless gSettled (by decide) (by decide)⟩

/-- C5.  For pieces, fragments and fragment groups alike, canMove returns
true exactly when every resulting cell is in bounds and Empty (getCell
returns an EMPTY cell there); an out-of-bounds destination (getCell none)
and an occupied destination both make it false. -/
theorem c5_canMove_iff (b : Grid) (p : Pill) (sp : SinglePill) (g : SplitGroup) (dx dy : Int) :
    (p.canMove b dx dy = true ↔ ∀ q ∈ p.getPositions,
      ∃ c, getCell b (q.x + dx) (q.y + dy) = some c ∧ c.type = CellType.EMPTY) ∧
    (sp.canMove b dx dy = true ↔
      ∃ c, getCell b (sp.position.x + dx) (sp.position.y + dy) = some c ∧
        c.type = CellType.EMPTY) ∧
    (g.canMove b dx dy = true ↔ ∀ piece ∈ g.pieces,
      ∃ c, getCell b (piece.position.x + dx) (piece.position.y + dy) = some c ∧
        c.type = CellType.EMPTY) := by
  refine ⟨?_, singlePill_canMove_iff sp b dx dy, ?_⟩
  · unfold Pill.canMove
    rw [List.all_eq_true]
    constructor
    · intro h q hm
      exact validEmpty_iff.mp (h q hm)
    · intro h q hm
      exact validEmpty_iff.mpr (h q hm)
  · unfold SplitGroup.canMove
    rw [List.all_eq_true]
    constructor
    · intro h q hm
      exact (singlePill_canMove_iff q b dx dy).mp (h q hm)
    · intro h q hm
      exact (singlePill_canMove_iff q b dx dy).mpr (h q hm)

/-- C5 witness: the iff instantiated at a concrete pill on the empty
board, moving down one row. -/
theorem c5_witness : Pill.canMove pTest emptyGrid 0 1 = true :=
  (c5_canMove_iff emptyGrid pTest spTest gTest 0 1).1.mpr (by
    intro q hq
    simp [Pill.getPositions, pTest] at hq
    rcases hq with rfl | rfl
    · exact ⟨emptyCell, by decide, rfl⟩
    · exact ⟨emptyCell, by decide, rfl⟩)

/-- C6.  A vertical piece at the board's rightmost column (x = 7) never
rotates: its canRotate check requires the out-of-bounds cell (8, y), and
the code implements no wall-kick offsets, so no offset ever succeeds —
canRotate returns false on every board, and the engine's rotatePill, which
calls rotate() only behind canRotate, leaves the state (hence the piece)
unchanged, so rotate() is never invoked. -/
theorem c6_rightmost_vertical_rotation (b : Grid) (p : Pill) (s : EngineState)
    (hor : p.orientation = Orientation.VERTICAL) (hx : p.position.x = 7) :
    p.canRotate b = false ∧
    (s.fallingPills.get? s.activePillIndex = some (Entity.pill p) → rotatePill s = s) := by
  have hcr : ∀ b2 : Grid, p.canRotate b2 = false := by
    intro b2
    unfold Pill.canRotate
    rw [if_neg (by simp [hor])]
    have hv : isValidPosition (p.position.x + 1) p.position.y = false := by
      rw [hx]
      simp only [isValidPosition, decide_eq_false_iff_not]
      omega
    rw [hv]
    simp
  refine ⟨hcr b, ?_⟩
  intro hget
  unfold rotatePill
  split
  · rfl
  · rw [hget]
    simp [Entity.canRotate, hcr]

/-- C6 witness: the concrete vertical pill `pVert` at column 7 cannot
rotate, and rotatePill on the engine holding it is a no-op. -/
theorem c6_witness :
    Pill.canRotate pVert emptyGrid = false ∧ rotatePill sRightmost = sRightmost :=
  ⟨(c6_rightmost_vertical_rotation emptyGrid pVert sRightmost rfl rfl).1,
    (c6_rightmost_vertical_rotation emptyGrid pVert sRightmost rfl rfl).2 rfl⟩

/-- C7 counterexample.  Pre-filling the board to the top (every cell
occupied, including both spawn cells (3, 0) and (4, 0)) and calling
startGame does NOT yield GameOver: startGame clears the board before
spawning, so the engine ends up PLAYING. -/
theorem c7_counterexample :
    getCell sPrefilled.board 3 0 = some ⟨CellType.PILL, some Color.RED, none⟩ ∧
    getCell sPrefilled.board 4 0 = some ⟨CellType.PILL, some Color.RED, none⟩ ∧
    (startGame sPrefilled 1).gameState = GameState.PLAYING ∧
    GameState.PLAYING ≠ GameState.GAME_OVER := by
  decide

/-- C7 (amended).  Spawn blockage is detected inside spawnNextPill: when
the freshly spawned piece cannot occupy its spawn cells, the engine
transitions to GameOver (as a state change of a total function — never an
exception).  startGame itself, however, clears the board and places
infections only in the lower half before its first spawn, so startGame
always leaves the engine PLAYING — a pre-filled board cannot block it. -/
theorem c7_spawn_blocked :
    (∀ (s : EngineState) (np : Pill), s.nextPill = some np → s.fallingPills = [] →
      (Entity.pill np).canMove s.board 0 0 = false →
      (spawnNextPill s).gameState = GameState.GAME_OVER) ∧
    (∀ (s : EngineState) (level : Nat), (startGame s level).gameState = GameState.PLAYING) :=
  ⟨fun _ _ hn hf hb => spawnNextPill_blocked hn hf hb, startGame_gameState⟩

/-- C7 witness: a concrete engine whose pending pill is spawn-blocked on a
full board transitions to GAME_OVER. -/
theorem c7_witness :
    sBlocked.nextPill = some pTest ∧ sBlocked.fallingPills = [] ∧
    (Entity.pill pTest).canMove sBlocked.board 0 0 = false ∧
    (spawnNextPill sBlocked).gameState = GameState.GAME_OVER :=
  ⟨rfl, rfl, by decide, c7_spawn_blocked.1 sBlocked pTest rfl rfl (by decide)⟩

/-- C8.  rotate() on a vertical piece yields a horizontal piece with the
two cell colors swapped; on a horizontal piece it yields a vertical piece
with the colors in their original order; position, id and activity are
untouched. -/
theorem c8_rotate_swaps_colors (p : Pill) :
    (p.rotate).orientation = (if p.orientation = Orientation.HORIZONTAL then
      Orientation.VERTICAL else Orientation.HORIZONTAL) ∧
    (p.rotate).colors = (if p.orientation = Orientation.HORIZONTAL then p.colors
      else (p.colors.2, p.colors.1)) ∧
    (p.rotate).position = p.position ∧ (p.rotate).id = p.id ∧
    (p.rotate).isActive = p.isActive := by
  unfold Pill.rotate
  by_cases h : p.orientation = Orientation.HORIZONTAL
  · simp [h]
  · simp [h]

/-- C9.  While the engine is PAUSED: update, movePill, rotatePill and
dropPill return the state unchanged (grid, falling set and stats
included); pause is a no-op; setFastDrop does not change the engine
state; and resume — alone among the player commands — changes the state,
back to PLAYING, touching nothing else. -/
theorem c9_paused_commands (s : EngineState) (dt : ℚ) (d : Direction) (f : Bool)
    (h : s.gameState = GameState.PAUSED) :
    update s dt = s ∧ movePill s d = s ∧ rotatePill s = s ∧ dropPill s = s ∧ pause s = s ∧
    (setFastDrop s f).gameState = GameState.PAUSED ∧
    resume s = { s with gameState := GameState.PLAYING } := by
  refine ⟨?_, ?_, ?_, ?_, ?_, ?_, ?_⟩
  · simp [update, h]
  · simp [movePill, h]
  · simp [rotatePill, h]
  · simp [dropPill, h]
  · simp [pause, h]
  · simp [setFastDrop, h]
  · simp [resume, h]

/-- C9 witness: the concrete paused engine `sPaused`. -/
theorem c9_witness :
    sPaused.gameState = GameState.PAUSED ∧ update sPaused 50 = sPaused ∧
    movePill sPaused Direction.LEFT = sPaused ∧ rotatePill sPaused = sPaused ∧
    dropPill sPaused = sPaused ∧ pause sPaused = sPaused ∧
    (setFastDrop sPaused true).gameState = GameState.PAUSED ∧
    resume sPaused = { sPaused with gameState := GameState.PLAYING } := by
  have h := c9_paused_commands sPaused 50 Direction.LEFT true rfl
  exact ⟨rfl, h.1, h.2.1, h.2.2.1, h.2.2.2.1, h.2.2.2.2.1, h.2.2.2.2.2.1, h.2.2.2.2.2.2⟩

/-- C10.  setCell with any out-of-bounds coordinates (isValidPosition
false) leaves every cell of the board unchanged — a silent no-op. -/
theorem c10_setCell_out_of_bounds (b : Grid) (x y : Int) (c : Cell)
    (h : isValidPosition x y = false) : setCell b x y c = b := by
  apply setCell_out
  unfold isValidPosition at h
  exact of_decide_eq_false h

/-- C10 witness: writing at column -1 changes nothing on the empty board. -/
theorem c10_witness :
    isValidPosition (-1) 5 = false ∧ setCell emptyGrid (-1) 5 pillPR = emptyGrid :=
  ⟨by decide, c10_setCell_out_of_bounds emptyGrid (-1) 5 pillPR (by decide)⟩

end PillPanic
